import Mathlib

/-!
Shallow embedding of the Mu exporter core (`export_mu/__init__.py` of
io_object_mu) for checking its natural-language specification.

The Blender scene is modelled as an immutable tree of `BObj` values; the
exporter's mutable `mu` context object is threaded explicitly as a `Mu`
state value; exceptions raised by external collaborators are modelled with
`Except String`.  Components of the repository that are not part of the
source under verification (mesh/collider/animation builders, the attach-node
helper, the config-node codec, small string utilities) are either
parameters (`Externals`) or definitions whose doc comments start with
"Modelled from the spec:".
-/

/-! ## The scalar field ℚ(√2)

`mathutils.Quaternion` values in the source use the component √0.5 = √2/2
for the ±90° rotation corrections.  We embed quaternion components as
elements a + b·√2 with a, b ∈ ℚ, which is computable and has decidable
equality, unlike ℝ. -/

structure K2 where
  a : ℚ
  b : ℚ
deriving DecidableEq, Repr

def K2.add (x y : K2) : K2 := ⟨x.a + y.a, x.b + y.b⟩

def K2.neg (x : K2) : K2 := ⟨-x.a, -x.b⟩

def K2.mul (x y : K2) : K2 := ⟨x.a * y.a + 2 * (x.b * y.b), x.a * y.b + x.b * y.a⟩

def K2.ofRat (q : ℚ) : K2 := ⟨q, 0⟩

def K2.zero : K2 := ⟨0, 0⟩

def K2.one : K2 := ⟨1, 0⟩

/-- √(1/2) = √2 / 2, i.e. 0 + (1/2)·√2. -/
def K2.sqrtHalf : K2 := ⟨0, 1/2⟩

/-- Quaternions over ℚ(√2), components in `mathutils` (w, x, y, z) order. -/
structure Quat where
  w : K2
  x : K2
  y : K2
  z : K2
deriving DecidableEq, Repr

/-- Hamilton product, the `@` operator of `mathutils.Quaternion`. -/
def Quat.mul (p q : Quat) : Quat :=
  ⟨((p.w.mul q.w).add ((p.x.mul q.x).neg)).add (((p.y.mul q.y).neg).add ((p.z.mul q.z).neg)),
   ((p.w.mul q.x).add (p.x.mul q.w)).add ((p.y.mul q.z).add ((p.z.mul q.y).neg)),
   ((p.w.mul q.y).add ((p.x.mul q.z).neg)).add ((p.y.mul q.w).add (p.z.mul q.x)),
   ((p.w.mul q.z).add (p.x.mul q.y)).add (((p.y.mul q.x).neg).add (p.z.mul q.w))⟩

def Quat.one : Quat := ⟨K2.one, K2.zero, K2.zero, K2.zero⟩

/-- `Quaternion((0.5**0.5, 0.5**0.5, 0, 0))` — +90° about local X
(line 186 of `export_mu/__init__.py`). -/
def rotAttach : Quat := ⟨K2.sqrtHalf, K2.sqrtHalf, K2.zero, K2.zero⟩

/-- `Quaternion((0.5**0.5, -0.5**0.5, 0, 0))` — −90° about local X
(lines 220 and 227 of `export_mu/__init__.py`). -/
def rotLightCam : Quat := ⟨K2.sqrtHalf, K2.sqrtHalf.neg, K2.zero, K2.zero⟩

/-! ## Vectors -/

/-- 3-component vector (`mathutils.Vector`); positions, scales and offsets.
Components are ℚ (the embedding does not model floating-point rounding). -/
structure V3 where
  x : ℚ
  y : ℚ
  z : ℚ
deriving DecidableEq, Repr

def V3.sub (u v : V3) : V3 := ⟨u.x - v.x, u.y - v.y, u.z - v.z⟩

def V3.zero : V3 := ⟨0, 0, 0⟩

def V3.ones : V3 := ⟨1, 1, 1⟩

/-! ## String utilities (from `utils.py`, which is not under `src/`) -/

/-- Modelled from the spec: `strip_nnn` (in `utils.py`, not in `src/`) is the
"companion numeric-suffix-stripping convention" — it removes a trailing
Blender duplicate suffix "." followed by three digits (e.g. "Cube.001" →
"Cube"). -/
def strip_nnn (name : String) : String :=
  let cs := name.data
  let n := cs.length
  if 4 ≤ n
     && decide ((cs.drop (n - 4)).head? = some '.')
     && (cs.drop (n - 3)).all Char.isDigit then
    ⟨cs.take (n - 4)⟩
  else name

/-- Modelled from the spec: `swapyz` (in `utils.py`, not in `src/`) is the
axis swap between the source tool's Z-up and the engine's Y-up convention:
it exchanges the y and z components. -/
def swapyz (v : V3) : V3 := ⟨v.x, v.z, v.y⟩

/-- Modelled from the spec: `swizzleq` (in `utils.py`, not in `src/`) is the
corresponding axis swap for quaternions ("axis-swapped" rotation). -/
def swizzleq (q : Quat) : Quat := ⟨q.w, q.x, q.z, q.y⟩

def ratStr (q : ℚ) : String := toString q.num ++ "/" ++ toString q.den

def k2Str (k : K2) : String := ratStr k.a ++ "+" ++ ratStr k.b ++ "r2"

/-- Modelled from the spec: `vector_str` (in `utils.py`, not in `src/`)
renders the components of a vector separated by ", ". -/
def vector_str (v : V3) : String :=
  ratStr v.x ++ ", " ++ ratStr v.y ++ ", " ++ ratStr v.z

/-- Modelled from the spec: `vector_str` applied to a quaternion (the Python
function is generic over component sequences). -/
def vector_strq (q : Quat) : String :=
  k2Str q.w ++ ", " ++ k2Str q.x ++ ", " ++ k2Str q.y ++ ", " ++ k2Str q.z

/-- `name[:5] == "node_"` (line 176): the attachment-node naming prefix
test, on the character list (Python string slicing). -/
def isNodeMarkerName (name : String) : Bool :=
  decide (name.data.take 5 = "node_".data)

/-- `if path: path += "/"`; `path += name` (lines 169–171). -/
def joinPath (p name : String) : String :=
  (if p ≠ "" then p ++ "/" else p) ++ name

/-! ## Blender-side data model (the scene query interface) -/

/-- The light data types of `light_types` (line 147).  `HEMI` is a member of
`light_types` but absent from the tuple indexed by `make_light`. -/
inductive LightType where
  | SPOT | SUN | POINT | AREA | HEMI
deriving DecidableEq, Repr

structure LightData where
  type : LightType
  -- color / distance / energy / spot_size are floating-point payload copied
  -- verbatim by make_light; they are not modelled.
deriving DecidableEq, Repr

/-- `obj.muproperties.clearFlags` enum (`make_camera`, line 136). -/
inductive ClearFlags where
  | SKYBOX | COLOR | DEPTH | NOTHING
deriving DecidableEq, Repr

def ClearFlags.index : ClearFlags → Nat
  | .SKYBOX => 0
  | .COLOR => 1
  | .DEPTH => 2
  | .NOTHING => 3

structure CamData where
  ortho : Bool
  -- angle / clip_start / clip_end are floating-point payload copied
  -- verbatim by make_camera; they are not modelled.
deriving DecidableEq, Repr

/-- A texture slot of a material's texture property bucket (`make_texture`'s
`tex` argument): source identifier, type tag and per-use tiling. -/
structure TexRef where
  tex : String
  type : Nat
  scale : ℚ × ℚ
  offset : ℚ × ℚ
deriving DecidableEq, Repr

/-- A value of a scalar/vector property bucket (`make_property`). -/
inductive PropVal where
  | f : ℚ → PropVal
  | vec : List ℚ → PropVal
deriving DecidableEq, Repr

/-- A Blender material as read by `make_material`. -/
structure Mat where
  name : String
  shaderName : String
  colorProps : List (String × PropVal)
  vectorProps : List (String × PropVal)
  float2Props : List (String × PropVal)
  float3Props : List (String × PropVal)
  textureProps : List (String × TexRef)
deriving DecidableEq, Repr

structure MeshData where
  materials : List Mat
deriving DecidableEq, Repr

/-- `obj.data`: `none` models a Blender empty. `other` models attached data
whose type is outside `exportable_types`. -/
inductive BData where
  | mesh : MeshData → BData
  | light : LightData → BData
  | camera : CamData → BData
  | other : BData
deriving DecidableEq, Repr

inductive ModelType where
  | NONE | PART | PROP | INTERNAL
deriving DecidableEq, Repr

def ModelType.str : ModelType → String
  | .NONE => "NONE"
  | .PART => "PART"
  | .PROP => "PROP"
  | .INTERNAL => "INTERNAL"

/-- `obj.muproperties`.  `collider` keeps the enum identifier string;
Python's `muprops.collider and muprops.collider != 'MU_COL_NONE'` is
`colliderSet` below. -/
structure MuProps where
  tag : String
  layer : Nat
  collider : String
  modelType : ModelType
  clearFlags : ClearFlags
  depth : ℚ
  cullingMask : Nat
deriving DecidableEq, Repr

/-- Non-recursive payload of a scene object. `ancestry` is the scene-query
data used by `is_group_root`: the `users_group` name lists of the object's
strict ancestors, innermost first. -/
structure BObjCore where
  name : String
  location : V3
  rotationQ : Quat
  scale : V3
  data : Option BData
  muprops : MuProps
  ancestry : List (List String)
deriving DecidableEq, Repr

/-- A Blender scene object: core payload, optional `dupli_group` (group
name, `dupli_offset`, the group's object list) and the object's children. -/
inductive BObj where
  | mk : BObjCore → Option (String × V3 × List BObj) → List BObj → BObj

def BObj.core : BObj → BObjCore
  | .mk c _ _ => c

def BObj.dupli : BObj → Option (String × V3 × List BObj)
  | .mk _ d _ => d

def BObj.children : BObj → List BObj
  | .mk _ _ ch => ch

def BObj.name (o : BObj) : String := o.core.name

def BObj.location (o : BObj) : V3 := o.core.location

def BObj.rotationQ (o : BObj) : Quat := o.core.rotationQ

def BObj.scale (o : BObj) : V3 := o.core.scale

def BObj.data (o : BObj) : Option BData := o.core.data

def BObj.muprops (o : BObj) : MuProps := o.core.muprops

def BObj.ancestry (o : BObj) : List (List String) := o.core.ancestry

/-- `o.location = v` (scene mutation, modelled functionally). -/
def BObj.withLocation : BObj → V3 → BObj
  | .mk c d ch, v => .mk { c with location := v } d ch

/-- `muprops.collider and muprops.collider != 'MU_COL_NONE'`
(lines 207 and 234). -/
def colliderSet (o : BObj) : Bool :=
  o.muprops.collider ≠ "" && o.muprops.collider ≠ "MU_COL_NONE"

/-! ## Mu-side data model (`mu.py` records, as populated by the exporter) -/

structure MuTransform where
  name : String
  localPosition : V3
  localRotation : Quat
  localScale : V3
deriving DecidableEq, Repr

structure TagLayer where
  tag : String
  layer : Nat
deriving DecidableEq, Repr

structure MuTexture where
  name : String
  type : Nat
  index : Nat
deriving DecidableEq, Repr

/-- `MuMatTex`: a per-use texture reference (index + tiling). -/
structure MuMatTex where
  index : Nat
  scale : ℚ × ℚ
  offset : ℚ × ℚ
deriving DecidableEq, Repr

structure MuMaterial where
  name : String
  index : Nat
  shaderName : String
  colorProperties : List (String × PropVal)
  vectorProperties : List (String × PropVal)
  floatProperties2 : List (String × PropVal)
  floatProperties3 : List (String × PropVal)
  textureProperties : List (String × MuMatTex)
deriving DecidableEq, Repr

structure MuRenderer where
  materials : List Nat
deriving DecidableEq, Repr

/-- `MuLight` as built by `make_light`; only the type index is modelled (the
remaining fields are floating-point payload copied verbatim). -/
structure MuLight where
  type : Nat
deriving DecidableEq, Repr

/-- `MuCamera` as built by `make_camera`; the floating-point fov/near/far
payload is not modelled. -/
structure MuCamera where
  clearFlags : Nat
  orthographic : Bool
  depth : ℚ
  cullingMask : Nat
deriving DecidableEq, Repr

/-- Modelled from the spec: the finished mesh record returned by the external
collaborator `make_mesh` (in `export_mu/mesh.py`, not in `src/`). -/
structure MuMesh where
  id : Nat
deriving DecidableEq, Repr

/-- Modelled from the spec: the collider record returned by the external
collaborator `make_collider` (in `export_mu/collider.py`, not in `src/`). -/
structure MuCollider where
  id : Nat
deriving DecidableEq, Repr

/-- Modelled from the spec: an attachment-node record (`attachnode.py`, not
in `src/`): "holds position/orientation and an ordering key"; `val` is the
text the record contributes to the config document via `save`. -/
structure AttachNode where
  name : String
  key : Nat
  val : String
deriving DecidableEq, Repr

/-- All fields of a `MuObject` except the child list. Defaults mirror the
`None` initial attribute values of the Python object. -/
structure MuObjParts where
  transform : MuTransform
  tag_and_layer : TagLayer
  shared_mesh : Option MuMesh := none
  renderer : Option MuRenderer := none
  light : Option MuLight := none
  camera : Option MuCamera := none
  collider : Option MuCollider := none
deriving DecidableEq, Repr

/-- An output tree node (`MuObject`). -/
inductive MuObject where
  | mk : MuObjParts → List MuObject → MuObject

def MuObject.parts : MuObject → MuObjParts
  | .mk p _ => p

def MuObject.children : MuObject → List MuObject
  | .mk _ ch => ch

def MuObject.transform (o : MuObject) : MuTransform := o.parts.transform

/-- The mutable export context `mu` (the `Model` of the spec), threaded
explicitly.  `object_paths`, `textures` and `materials` are Python dicts:
insertion-ordered association lists where assigning to an existing key
replaces the value in place.  The `MuObject` stored in `object_paths` is the
registration-time value; in Python the dict holds a reference that keeps
being populated until the node's `make_obj` call returns, but the path-index
claims below only concern the keys and their order. -/
structure Mu where
  type : ModelType
  object_paths : List (String × MuObject)
  materials : List (String × MuMaterial)
  textures : List (String × MuTexture)
  nodes : List AttachNode
  props : List BObj
  internal : Option BObj
  CoMOffset : Option V3 := none
  CoPOffset : Option V3 := none
  CoLOffset : Option V3 := none

/-- Python dict assignment `d[k] = v`: replace in place if the key exists,
otherwise append (dicts preserve insertion order). -/
def dictInsert {α : Type} (d : List (String × α)) (k : String) (v : α) :
    List (String × α) :=
  if (d.find? (fun p => p.1 == k)).isSome then
    d.map (fun p => if p.1 == k then (p.1, v) else p)
  else d ++ [(k, v)]

def dictLookup {α : Type} (d : List (String × α)) (k : String) : Option α :=
  (d.find? (fun p => p.1 == k)).map (fun p => p.2)

/-! ## Leaf builders (`export_mu/__init__.py` lines 50–145) -/

/-- `make_transform` (line 50).  The Euler-to-quaternion conversion of the
non-quaternion rotation mode is trigonometric external math; the scene model
exposes the object's orientation as the quaternion `rotationQ`. -/
def make_transform (obj : BObj) : MuTransform :=
  { name := strip_nnn obj.name
    localPosition := obj.location
    localRotation := obj.rotationQ
    localScale := obj.scale }

/-- `make_tag_and_layer` (line 61). -/
def make_tag_and_layer (obj : BObj) : TagLayer :=
  { tag := obj.muprops.tag, layer := obj.muprops.layer }

/-- `make_texture` (line 67): intern the texture by source identifier,
return a per-use `MuMatTex`. -/
def make_texture (mu : Mu) (tex : TexRef) : Mu × MuMatTex :=
  match dictLookup mu.textures tex.tex with
  | some mutex => (mu, ⟨mutex.index, tex.scale, tex.offset⟩)
  | none =>
      let mutex : MuTexture := ⟨tex.tex, tex.type, mu.textures.length⟩
      ({ mu with textures := dictInsert mu.textures tex.tex mutex },
       ⟨mutex.index, tex.scale, tex.offset⟩)

/-- `make_property` (line 80): copy a property bucket into a dict. -/
def make_property (blendprop : List (String × PropVal)) :
    List (String × PropVal) :=
  blendprop.foldl (fun d item => dictInsert d item.1 item.2) []

/-- `make_tex_property` (line 89): intern every texture slot, threading the
model state. -/
def make_tex_property (mu : Mu) (blendprop : List (String × TexRef)) :
    Mu × List (String × MuMatTex) :=
  blendprop.foldl
    (fun acc item =>
      let (mu1, mattex) := make_texture acc.1 item.2
      (mu1, dictInsert acc.2 item.1 mattex))
    (mu, [])

/-- `make_material` (line 95). -/
def make_material (mu : Mu) (mat : Mat) : Mu × MuMaterial :=
  let index := mu.materials.length
  let (mu1, texprops) := make_tex_property mu mat.textureProps
  (mu1,
   { name := mat.name
     index := index
     shaderName := mat.shaderName
     colorProperties := make_property mat.colorProps
     vectorProperties := make_property mat.vectorProps
     floatProperties2 := make_property mat.float2Props
     floatProperties3 := make_property mat.float3Props
     textureProperties := texprops })

/-- One iteration of `make_renderer`'s loop body for a shader-bearing
material: intern if absent, then return the interned index. -/
def intern_material (mu : Mu) (mat : Mat) : Mu × Nat :=
  match dictLookup mu.materials mat.name with
  | some m => (mu, m.index)
  | none =>
      let (mu1, m) := make_material mu mat
      ({ mu1 with materials := dictInsert mu1.materials mat.name m }, m.index)

/-- `make_renderer` (line 108): materials without a shader are skipped
(`if mat.mumatprop.shaderName:`); an empty index list yields `None`. -/
def make_renderer (mu : Mu) (mesh : MeshData) : Mu × Option MuRenderer :=
  let r := mesh.materials.foldl
    (fun (acc : Mu × List Nat) mat =>
      if mat.shaderName ≠ "" then
        let (mu1, idx) := intern_material acc.1 mat
        (mu1, acc.2 ++ [idx])
      else acc)
    (mu, [])
  if r.2 = [] then (r.1, none) else (r.1, some ⟨r.2⟩)

/-- `make_light` (line 121): `('SPOT','SUN','POINT','AREA').index(...)`
raises `ValueError` for a hemi light (HEMI is in `light_types` but not in
the tuple). -/
def make_light (l : LightData) : Except String MuLight :=
  match l.type with
  | .SPOT => .ok ⟨0⟩
  | .SUN => .ok ⟨1⟩
  | .POINT => .ok ⟨2⟩
  | .AREA => .ok ⟨3⟩
  | .HEMI => .error "ValueError: HEMI is not in list"

/-- `make_camera` (line 133); the floating-point fov/near/far payload is not
modelled. -/
def make_camera (camera : CamData) (obj : BObj) : MuCamera :=
  { clearFlags := obj.muprops.clearFlags.index + 1
    orthographic := camera.ortho
    depth := obj.muprops.depth
    cullingMask := obj.muprops.cullingMask }

/-- `is_group_root` (line 157): every strict ancestor of the object must be
a user of the group.  `ancestry` is the list of the ancestors' `users_group`
name lists. -/
def is_group_root (gname : String) (ancestry : List (List String)) : Bool :=
  ancestry.all (fun ug => ug.contains gname)

/-! ## External collaborators -/

/-- The external collaborators consumed by the traversal whose code is not
under `src/`.  Modelled from the spec: `make_mesh`/`make_collider` produce
finished mesh/collider records (and may raise — `Except`);
`mkAttachNode`/`keep_transform` model `AttachNode(obj, mu.inverse)` and its
`keep_transform()` method; `worldPosInModel` models
`(mu.inverse @ obj.matrix_world.col[3])[:3]`; `parse_node` models
`parse_node(mu, cfgnode)`, the generic key/value template parser. -/
structure Externals where
  make_mesh : BObj → Except String MuMesh
  make_collider : BObj → Except String MuCollider
  mkAttachNode : BObj → AttachNode
  keep_transform : AttachNode → Bool
  worldPosInModel : BObj → V3

/-- A per-model-type special-handler table (`special_modelTypes[mu.type]`):
an association list from a child's `modelType` to a handler that may claim
the child (returning `true` to `continue`). -/
abbrev Special := List (ModelType × (Mu → BObj → Mu × Bool))

def lookupHandler (special : Special) (t : ModelType) :
    Option (Mu → BObj → Mu × Bool) :=
  (special.find? (fun p => p.1 == t)).map (fun p => p.2)

/-- `add_internal` (line 312). -/
def add_internal (mu : Mu) (obj : BObj) : Mu × Bool :=
  (if mu.internal.isNone then { mu with internal := some obj } else mu, true)

/-- `add_prop` (line 317). -/
def add_prop (mu : Mu) (obj : BObj) : Mu × Bool :=
  ({ mu with props := mu.props ++ [obj] }, true)

/-- `special_modelTypes` (line 321). -/
def special_modelTypes (t : ModelType) : Special :=
  match t with
  | .NONE => []
  | .PART => [(.INTERNAL, add_internal)]
  | .PROP => []
  | .INTERNAL => [(.PROP, add_prop)]

/-! ## The tree builder (`make_obj`, lines 166–242) -/

/-- `setattr(mu, name, ...)` for the three offset-marker names (line 189). -/
def setOffset (mu : Mu) (name : String) (v : V3) : Mu :=
  if name = "CoMOffset" then { mu with CoMOffset := some v }
  else if name = "CoPOffset" then { mu with CoPOffset := some v }
  else { mu with CoLOffset := some v }

/-- `o.data and type(o.data) not in exportable_types` (line 237). -/
def isUnexportable (o : BObj) : Bool :=
  match o.data with
  | some .other => true
  | _ => false

/-- Line 172: register the node (as populated so far) into the model's
path index under its full path, before any descent into children.  In
Python the dict stores a reference that continues to be populated until the
node's `make_obj` call returns; claims about the path index below concern
its keys and their insertion order, which agree with this model. -/
def registerPath (mu : Mu) (path1 : String) (t : MuTransform) (tl : TagLayer) :
    Mu :=
  let stub := MuObject.mk { transform := t, tag_and_layer := tl } []
  { mu with object_paths := dictInsert mu.object_paths path1 stub }

/-- Lines 174–190: handling of empties — attachment-node markers (appended
to `mu.nodes`, dropped when `keep_transform()` declines, otherwise given
the +90° X correction) and the three offset markers.  Returns the updated
model, the (possibly corrected) transform, and whether the object was
dropped. -/
def markerStep (ext : Externals) (mu1 : Mu) (this : BObj) (t : MuTransform) :
    Mu × MuTransform × Bool :=
  if this.data.isNone && isNodeMarkerName (strip_nnn this.name) then
    let n := ext.mkAttachNode this
    let mu2 := { mu1 with nodes := mu1.nodes ++ [n] }
    if ext.keep_transform n then
      (mu2, { t with localRotation := t.localRotation.mul rotAttach }, false)
    else (mu2, t, true)
  else if this.data.isNone &&
      ["CoMOffset", "CoPOffset", "CoLOffset"].contains (strip_nnn this.name) then
    (setOffset mu1 (strip_nnn this.name) (ext.worldPosInModel this), t, false)
  else (mu1, t, false)

/-- Lines 207–228: the data dispatch for an object that owns data — a
collider owner is skipped (line 210), a mesh gets `shared_mesh`/`renderer`,
a light or camera gets its record and the −90° X correction; unrecognized
data populates nothing.  Returns the updated model and the node fields. -/
def dataDispatch (ext : Externals) (mu2 : Mu) (this : BObj)
    (parts0 : MuObjParts) (t2 : MuTransform) : Mu × Except String MuObjParts :=
  if colliderSet this then (mu2, .ok parts0)
  else
    match this.data with
    | some (.mesh md) =>
        match ext.make_mesh this with
        | .error e => (mu2, .error e)
        | .ok m =>
            let rr := make_renderer mu2 md
            (rr.1, .ok { parts0 with shared_mesh := some m, renderer := rr.2 })
    | some (.light l) =>
        match make_light l with
        | .error e => (mu2, .error e)
        | .ok ml =>
            let tL := { t2 with localRotation := t2.localRotation.mul rotLightCam }
            (mu2, .ok { parts0 with light := some ml, transform := tL })
    | some (.camera c) =>
        let tC := { t2 with localRotation := t2.localRotation.mul rotLightCam }
        (mu2, .ok { parts0 with camera := some (make_camera c this), transform := tC })
    | some .other => (mu2, .ok parts0)
    | none => (mu2, .ok parts0)

/-- The effective object seen during a build: the caller's temporary
location mutation applied, if any. -/
def effObj (locOv : Option V3) (o : BObj) : BObj :=
  match locOv with
  | some v => o.withLocation v
  | none => o

/-- Lines 191–228, selection between the two child sources: a data-less
object pulls in its group-instance children (`gR`), an object with data
runs the data dispatch (`rd`); exactly one of the two results is used. -/
def branchStep (data : Option BData) (parts0 : MuObjParts)
    (gR : List BObj × Mu × Except String (List MuObject))
    (rd : Mu × Except String MuObjParts) :
    Mu × Except String (MuObjParts × List MuObject) :=
  if data.isNone then (gR.2.1, gR.2.2.map (fun cs => (parts0, cs)))
  else (rd.1, rd.2.map (fun p => (p, [])))

/-- Lines 229–242, assembling the returned node: propagate the first
raised exception, otherwise attach the collider field written by the
children loop and the collected children (group children first). -/
def finishStep (branchR : Mu × Except String (MuObjParts × List MuObject))
    (bc : Mu × Except String (List MuObject × Option MuCollider)) :
    Mu × Except String (Option MuObject) :=
  match branchR.2 with
  | .error e => (branchR.1, .error e)
  | .ok (parts1, groupKids) =>
      match bc.2 with
      | .error e => (bc.1, .error e)
      | .ok (kids, lastCol) =>
          (bc.1, .ok (some (MuObject.mk { parts1 with collider := lastCol }
            (groupKids ++ kids))))

mutual

/-- `make_obj` (line 166), parameterized by the in-place location mutation
of the group-instance branch: `locOv = some v` models being called on an
object whose `location` the caller has temporarily set to `v` (Python
mutates the scene object before the recursive call; here the effective
object `this` carries the overridden location, and the recursion stays
structural).  Returns the updated model state and either the raised
exception, `none` (an attachment-node marker that declined to keep its
transform) or the populated node. -/
def make_obj_at (ext : Externals) (special : Special) (mu : Mu)
    (locOv : Option V3) (obj : BObj) (path : String) :
    Mu × Except String (Option MuObject) :=
  match obj with
  | .mk core dupli childs =>
    let this := effObj locOv (BObj.mk core dupli childs)
    let t := make_transform this
    let path1 := joinPath path t.name
    let tl := make_tag_and_layer this
    let mu1 := registerPath mu path1 t tl
    let marker := markerStep ext mu1 this t
    if marker.2.2 then (marker.1, .ok none)
    else
      let parts0 : MuObjParts := { transform := marker.2.1, tag_and_layer := tl }
      let gR := match dupli with
        | some (gname, goffset, gobjs) =>
            build_group_children ext special gname goffset marker.1 path1 gobjs
        | none => ([], marker.1, .ok [])
      let branchR := branchStep core.data parts0 gR
        (dataDispatch ext marker.1 this parts0 marker.2.1)
      finishStep branchR (build_children ext special branchR.1 path1 childs)
termination_by structural obj

/-- Lines 193–206: the loop over a referenced group's objects.  The first
component of the result is the post-loop scene state of each group object:
the location shift of a qualifying group root is reverted after a nested
build that returns, but not after one that raises (the Python code has no
try/finally; on an exception the `o.location = loc` line never runs).
`make_obj` discards this component — the exporter never re-reads those
locations — but it is the observable for the restore property. -/
def build_group_children (ext : Externals) (special : Special) (gname : String)
    (goffset : V3) (mu : Mu) (path : String) :
    (gobjs : List BObj) → List BObj × Mu × Except String (List MuObject)
  | [] => ([], mu, .ok [])
  | o :: rest =>
    if is_group_root gname o.ancestry then
      let loc := o.location
      let o1 := o.withLocation (o.location.sub goffset)
      match make_obj_at ext special mu (some (o.location.sub goffset)) o path with
      | (mu1, .error e) => (o1 :: rest, mu1, .error e)
      | (mu1, .ok child) =>
          let o2 := o1.withLocation loc
          match build_group_children ext special gname goffset mu1 path rest with
          | (posts, mu2, .error e) => (o2 :: posts, mu2, .error e)
          | (posts, mu2, .ok cs) =>
              (o2 :: posts, mu2,
               .ok ((match child with | some c => [c] | none => []) ++ cs))
    else
      match build_group_children ext special gname goffset mu path rest with
      | (posts, mu1, r) => (o :: posts, mu1, r)
termination_by structural gobjs => gobjs

/-- Lines 229–241: the loop over the object's Blender children.  Returns the
surviving child nodes in traversal order together with the last value
assigned to the parent's `collider` field (each collider-bearing child that
no special handler claims overwrites it). -/
def build_children (ext : Externals) (special : Special) (mu : Mu)
    (path : String) :
    (cs : List BObj) → Mu × Except String (List MuObject × Option MuCollider)
  | [] => (mu, .ok ([], none))
  | o :: rest =>
    let step : Mu × Bool :=
      match lookupHandler special o.muprops.modelType with
      | some h => h mu o
      | none => (mu, false)
    let mu1 := step.1
    if step.2 then build_children ext special mu1 path rest
    else if colliderSet o then
      match ext.make_collider o with
      | .error e => (mu1, .error e)
      | .ok col =>
          match build_children ext special mu1 path rest with
          | (mu2, .error e) => (mu2, .error e)
          | (mu2, .ok (kids, lastCol)) =>
              (mu2, .ok (kids,
                match lastCol with
                | some c => some c
                | none => some col))
    else if isUnexportable o then build_children ext special mu1 path rest
    else
      match make_obj_at ext special mu1 none o path with
      | (mu2, .error e) => (mu2, .error e)
      | (mu2, .ok child) =>
          match build_children ext special mu2 path rest with
          | (mu3, .error e) => (mu3, .error e)
          | (mu3, .ok (kids, lastCol)) =>
              (mu3, .ok ((match child with | some c => [c] | none => []) ++ kids,
                lastCol))
termination_by structural cs => cs

end

/-- `make_obj` (line 166) as called from outside a group-instance branch:
no location override is in effect. -/
def make_obj (ext : Externals) (special : Special) (mu : Mu) (obj : BObj)
    (path : String) : Mu × Except String (Option MuObject) :=
  make_obj_at ext special mu none obj path


/-! ## Config emission (`generate_cfg` and helpers, lines 261–310) -/

/-- Modelled from the spec: the generic hierarchical key/value config
document (`cfgnode.py`, not in `src/`): an ordered list of key/value pairs
plus an ordered list of named child nodes, with append and
get-section-by-name operations. -/
inductive ConfigNode where
  | node : List (String × String) → List (String × ConfigNode) → ConfigNode

def ConfigNode.values : ConfigNode → List (String × String)
  | .node vs _ => vs

def ConfigNode.nodes : ConfigNode → List (String × ConfigNode)
  | .node _ ns => ns

/-- `AddValue`: append a key/value pair. -/
def ConfigNode.AddValue : ConfigNode → String → String → ConfigNode
  | .node vs ns, k, v => .node (vs ++ [(k, v)]) ns

/-- `AddNewNode` followed by populating the returned child, in pure style:
the fully built child is appended. -/
def ConfigNode.AddNode : ConfigNode → String → ConfigNode → ConfigNode
  | .node vs ns, name, child => .node vs (ns ++ [(name, child)])

/-- `GetNode`: first child node with the given name. -/
def ConfigNode.GetNode (n : ConfigNode) (name : String) : Option ConfigNode :=
  (n.nodes.find? (fun p => p.1 == name)).map (fun p => p.2)

def replaceFirstNode (f : ConfigNode → ConfigNode) (name : String) :
    List (String × ConfigNode) → List (String × ConfigNode)
  | [] => []
  | p :: rest =>
      if p.1 == name then (p.1, f p.2) :: rest
      else p :: replaceFirstNode f name rest

/-- In-place mutation of the section returned by `GetNode`, in pure style:
apply `f` to the first child named `name`. -/
def ConfigNode.updateNode (n : ConfigNode) (name : String)
    (f : ConfigNode → ConfigNode) : ConfigNode :=
  .node n.values (replaceFirstNode f name n.nodes)

/-- `add_internal_node` (line 261).  A `mathutils` 3-vector defines `__len__`
(= 3) and no `__bool__`, so `if internal.location:` is always true and the
offset value is always added. -/
def add_internal_node (node : ConfigNode) (internal : BObj) : ConfigNode :=
  let inode := ConfigNode.node [] []
  let inode := inode.AddValue "name" (strip_nnn internal.name)
  let inode := inode.AddValue "offset" (vector_str (swapyz internal.location))
  let inode :=
    if internal.scale ≠ V3.ones then
      inode.AddValue "scale" (vector_str (swapyz internal.scale))
    else inode
  node.AddNode "INTERNAL" inode

/-- `add_prop_node` (line 273).  Note: line 278 of the source passes the
key "position" (not "rotation") for the swizzled rotation value. -/
def add_prop_node (node : ConfigNode) (prop : BObj) : ConfigNode :=
  let pnode := ConfigNode.node [] []
  let pnode := pnode.AddValue "name" (strip_nnn prop.name)
  let pnode := pnode.AddValue "position" (vector_str (swapyz prop.location))
  let pnode := pnode.AddValue "position" (vector_strq (swizzleq prop.rotationQ))
  let pnode := pnode.AddValue "scale" (vector_str (swapyz prop.scale))
  node.AddNode "PROP" pnode

/-- Modelled from the spec: `AttachNode.save` (`attachnode.py`, not in
`src/`) writes the attachment-node record into the section. -/
def AttachNode.save (n : AttachNode) (node : ConfigNode) : ConfigNode :=
  node.AddValue n.name n.val

def insertAttachNode (n : AttachNode) : List AttachNode → List AttachNode
  | [] => [n]
  | m :: rest =>
      if n.key ≤ m.key then n :: m :: rest else m :: insertAttachNode n rest

/-- `mu.nodes.sort()` (line 301): sort attachment nodes by their ordering
key. -/
def sortNodes (ns : List AttachNode) : List AttachNode :=
  ns.foldr insertAttachNode []

/-- `generate_cfg` (line 281), with the file-system interactions factored
out: `tmpl` is the template document located by `find_template` (`none`
when no template exists), `sceneType` is the scene-wide default model type,
and `parse_node` (in `parser.py`, not in `src/`) is the external generic
template parser, passed in as a parameter.  Returns the document written to
the .cfg file, or `none` when config generation is skipped. -/
def generate_cfg (parse_node : Mu → ConfigNode → Mu) (tmpl : Option ConfigNode)
    (sceneType : ModelType) (mu : Mu) : Option ConfigNode :=
  match tmpl with
  | none => none
  | some cfgnode =>
    let ntype := if mu.type = ModelType.NONE then sceneType else mu.type
    match cfgnode.GetNode ntype.str with
    | none => none
    | some _ =>
      let mu1 := parse_node mu cfgnode
      let upd : ConfigNode → ConfigNode := fun node =>
        match ntype with
        | .PART =>
            let node := match mu1.CoMOffset with
              | some v => node.AddValue "CoMOffset" (vector_str (swapyz v))
              | none => node
            let node := match mu1.CoPOffset with
              | some v => node.AddValue "CoPOffset" (vector_str (swapyz v))
              | none => node
            let node := match mu1.CoLOffset with
              | some v => node.AddValue "CoLOffset" (vector_str (swapyz v))
              | none => node
            let node := match mu1.internal with
              | some i => add_internal_node node i
              | none => node
            (sortNodes mu1.nodes).foldl (fun nd n => n.save nd) node
        | .INTERNAL => mu1.props.foldl (fun nd p => add_prop_node nd p) node
        | _ => node
      some (cfgnode.updateNode ntype.str upd)

/-! ## Spec-side definitions (for refinement-style comparison) -/

/-- The renderer contract in the spec's words: keep exactly the materials
with an assigned shader, intern each in authoring order, and produce no
renderer record at all when none survive. -/
def renderer_spec (mu : Mu) (mesh : MeshData) : Mu × Option MuRenderer :=
  let kept := mesh.materials.filter (fun m => m.shaderName ≠ "")
  let r := kept.foldl
    (fun (acc : Mu × List Nat) mat =>
      let (mu1, idx) := intern_material acc.1 mat
      (mu1, acc.2 ++ [idx]))
    (mu, [])
  if r.2 = [] then (r.1, none) else (r.1, some ⟨r.2⟩)

/-- The 1:1 role-to-rotation-correction table in the spec's words:
attachment-node markers +90° about local X, lights and cameras −90° about
local X, everything else no correction.  Roles follow the classifier's
decision order: marker first, then collider owner (which receives no
correction), then light/camera. -/
def correctionFor (obj : BObj) : Quat :=
  if obj.data.isNone && isNodeMarkerName (strip_nnn obj.name) then rotAttach
  else if colliderSet obj then Quat.one
  else
    match obj.data with
    | some (.light _) => rotLightCam
    | some (.camera _) => rotLightCam
    | _ => Quat.one

/-- An attachment-node marker that declines to keep its transform: an empty
whose stripped name has the `node_` prefix and whose naming convention
(`keep_transform`) rejects materializing it. -/
def declinedMarker (ext : Externals) (obj : BObj) : Bool :=
  obj.data.isNone && isNodeMarkerName (strip_nnn obj.name)
    && !(ext.keep_transform (ext.mkAttachNode obj))

/-- Projection: the build produced a populated tree node. -/
def isBuiltNode : Except String (Option MuObject) → Bool
  | .ok (some _) => true
  | _ => false

def slashFree (s : String) : Bool := !(s.data.contains '/')

mutual

/-- "Absent authoring name collisions": every (stripped) name in the object
tree is nonempty and "/"-free, and within one parent the names of the
group-instanced objects and the declared children are pairwise distinct. -/
def goodNames : BObj → Bool
  | .mk core dupli childs =>
    let gnames :=
      match dupli with
      | some (_, _, gobjs) => gobjs.map (fun o => strip_nnn o.name)
      | none => []
    strip_nnn core.name ≠ "" && slashFree (strip_nnn core.name)
      && decide (gnames ++ childs.map (fun o => strip_nnn o.name)).Nodup
      && (match dupli with
          | some (_, _, gobjs) => goodNamesList gobjs
          | none => true)
      && goodNamesList childs

def goodNamesList : List BObj → Bool
  | [] => true
  | o :: rest => goodNames o && goodNamesList rest

end

/-! ## Concrete fixtures for counterexamples and witnesses -/

def defProps : MuProps := ⟨"", 0, "MU_COL_NONE", .NONE, .SKYBOX, 0, 0⟩

def colProps : MuProps := ⟨"", 0, "MU_COL_BOX", .NONE, .SKYBOX, 0, 0⟩

def mkEmpty (name : String) (ch : List BObj) : BObj :=
  .mk ⟨name, V3.zero, Quat.one, V3.ones, none, defProps, []⟩ none ch

def mkColObj (name : String) : BObj :=
  .mk ⟨name, V3.zero, Quat.one, V3.ones, none, colProps, []⟩ none []

def q0 : Quat := ⟨⟨1, 0⟩, ⟨2, 0⟩, ⟨3, 0⟩, ⟨4, 0⟩⟩

def mkLightObj (name : String) : BObj :=
  .mk ⟨name, V3.zero, q0, V3.ones, some (.light ⟨.SPOT⟩), defProps, []⟩ none []

def meshObj : BObj :=
  .mk ⟨"m", ⟨5, 6, 7⟩, Quat.one, V3.ones, some (.mesh ⟨[]⟩), defProps, []⟩ none []

/-- Externals whose attach-node convention always keeps the transform. -/
def extKeep : Externals :=
  { make_mesh := fun _ => .ok ⟨0⟩
    make_collider := fun o => .ok ⟨o.name.length⟩
    mkAttachNode := fun o => ⟨strip_nnn o.name, 0, "attach"⟩
    keep_transform := fun _ => true
    worldPosInModel := fun o => o.location }

/-- Externals whose attach-node convention always declines the transform. -/
def extDecline : Externals := { extKeep with keep_transform := fun _ => false }

/-- Externals whose external mesh builder raises. -/
def extFailMesh : Externals := { extKeep with make_mesh := fun _ => .error "boom" }

def mu0 : Mu := ⟨.NONE, [], [], [], [], [], none, none, none, none⟩

/-! ## Library lemmas -/

theorem dictLookup_nil {α : Type} (k : String) :
    dictLookup ([] : List (String × α)) k = none := rfl

theorem dictLookup_none_find {α : Type} (d : List (String × α)) (k : String)
    (h : dictLookup d k = none) : d.find? (fun p => p.1 == k) = none := by
  unfold dictLookup at h
  cases hf : d.find? (fun p => p.1 == k) with
  | none => rfl
  | some p => rw [hf] at h; simp at h

theorem dictInsert_fresh {α : Type} (d : List (String × α)) (k : String) (v : α)
    (h : dictLookup d k = none) : dictInsert d k v = d ++ [(k, v)] := by
  unfold dictInsert
  rw [dictLookup_none_find d k h]
  simp

theorem dictLookup_append_fresh {α : Type} (d : List (String × α)) (k : String)
    (v : α) (h : dictLookup d k = none) :
    dictLookup (d ++ [(k, v)]) k = some v := by
  induction d with
  | nil => simp [dictLookup, List.find?]
  | cons p rest ih =>
      by_cases hp : (p.1 == k) = true
      · exfalso
        simp [dictLookup, List.find?, hp] at h
      · simp only [Bool.not_eq_true] at hp
        simp only [dictLookup, List.cons_append, List.find?, hp] at h ⊢
        exact ih h

/-! ## C4: texture interning -/

/-- C4: interning two texture references with the same source identifier
into the same model returns the same index both times; each returned
`MuMatTex` keeps its own per-use scale and offset; a fresh source identifier
is assigned the next sequential index (the table size at insertion). -/
theorem make_texture_interning (mu : Mu) (t1 t2 : TexRef) (h : t1.tex = t2.tex) :
    (make_texture (make_texture mu t1).1 t2).2.index = (make_texture mu t1).2.index ∧
    (make_texture mu t1).2.scale = t1.scale ∧
    (make_texture mu t1).2.offset = t1.offset ∧
    (make_texture (make_texture mu t1).1 t2).2.scale = t2.scale ∧
    (make_texture (make_texture mu t1).1 t2).2.offset = t2.offset ∧
    (dictLookup mu.textures t1.tex = none →
      (make_texture mu t1).2.index = mu.textures.length) := by
  cases hl : dictLookup mu.textures t1.tex with
  | some mutex =>
      unfold make_texture
      rw [hl, ← h, hl]
      simp [hl]
  | none =>
      unfold make_texture
      rw [hl, ← h]
      have hfresh := dictInsert_fresh mu.textures t1.tex
        (⟨t1.tex, t1.type, mu.textures.length⟩ : MuTexture) hl
      simp only [hfresh, dictLookup_append_fresh mu.textures t1.tex _ hl]
      simp

/-- C4 witness: two uses of the same source id "skin" with different
tilings share index 0 in the empty model while keeping their own
scale/offset. -/
theorem make_texture_interning_witness :
    (make_texture (make_texture mu0 ⟨"skin", 0, (1, 2), (3, 4)⟩).1
        ⟨"skin", 7, (5, 6), (7, 8)⟩).2.index =
      (make_texture mu0 ⟨"skin", 0, (1, 2), (3, 4)⟩).2.index ∧
    (make_texture mu0 ⟨"skin", 0, (1, 2), (3, 4)⟩).2.scale = (1, 2) ∧
    (make_texture mu0 ⟨"skin", 0, (1, 2), (3, 4)⟩).2.offset = (3, 4) ∧
    (make_texture (make_texture mu0 ⟨"skin", 0, (1, 2), (3, 4)⟩).1
        ⟨"skin", 7, (5, 6), (7, 8)⟩).2.scale = (5, 6) ∧
    (make_texture (make_texture mu0 ⟨"skin", 0, (1, 2), (3, 4)⟩).1
        ⟨"skin", 7, (5, 6), (7, 8)⟩).2.offset = (7, 8) ∧
    (dictLookup mu0.textures "skin" = none →
      (make_texture mu0 ⟨"skin", 0, (1, 2), (3, 4)⟩).2.index = mu0.textures.length) :=
  make_texture_interning mu0 ⟨"skin", 0, (1, 2), (3, 4)⟩ ⟨"skin", 7, (5, 6), (7, 8)⟩ rfl

/-! ## C5: materials without a shader are excluded; no empty renderer -/

theorem renderer_foldl_filter (l : List Mat) (acc : Mu × List Nat) :
    l.foldl
      (fun (acc : Mu × List Nat) mat =>
        if mat.shaderName ≠ "" then
          let (mu1, idx) := intern_material acc.1 mat
          (mu1, acc.2 ++ [idx])
        else acc) acc
    = (l.filter (fun m => m.shaderName ≠ "")).foldl
        (fun (acc : Mu × List Nat) mat =>
          let (mu1, idx) := intern_material acc.1 mat
          (mu1, acc.2 ++ [idx])) acc := by
  induction l generalizing acc with
  | nil => rfl
  | cons m rest ih =>
      rw [List.foldl_cons, List.filter_cons]
      by_cases hm : m.shaderName = ""
      · rw [if_neg (by simp [hm]), if_neg (by simp [hm])]
        exact ih acc
      · rw [if_pos hm, if_pos (by simp [hm]), List.foldl_cons]
        exact ih _

/-- C5: `make_renderer` behaves exactly as the spec words it
(`renderer_spec`): materials without an assigned shader are excluded from
the interned index list, and when none survive the result is no renderer at
all — never `some` renderer with an empty material list. -/
theorem make_renderer_spec (mu : Mu) (mesh : MeshData) :
    make_renderer mu mesh = renderer_spec mu mesh ∧
    (make_renderer mu mesh).2 ≠ some ⟨[]⟩ := by
  constructor
  · unfold make_renderer renderer_spec
    rw [renderer_foldl_filter]
  · unfold make_renderer
    cases hr : (mesh.materials.foldl
      (fun (acc : Mu × List Nat) mat =>
        if mat.shaderName ≠ "" then
          let (mu1, idx) := intern_material acc.1 mat
          (mu1, acc.2 ++ [idx])
        else acc) (mu, [])) with
    | mk mu2 idxs =>
        by_cases hi : idxs = []
        · simp [hi]
        · simp [hi]

/-! ## C7: prop blocks in the generated config -/

def propP : BObj := .mk ⟨"propA", ⟨1, 2, 3⟩, q0, V3.ones, none, defProps, []⟩ none []

def propQ : BObj := .mk ⟨"propB", ⟨4, 5, 6⟩, q0, V3.ones, none, defProps, []⟩ none []

def internalObj : BObj :=
  .mk ⟨"podInterior", ⟨0, 0, 1⟩, Quat.one, V3.ones, none, defProps, []⟩ none []

def muPartWithProps : Mu :=
  ⟨.PART, [], [], [], [], [propP, propQ], some internalObj, none, none, none⟩

def muInternalWithProps : Mu :=
  ⟨.INTERNAL, [], [], [], [], [propP, propQ], none, none, none, none⟩

def tmplPart : ConfigNode := .node [] [("PART", .node [] [])]

def tmplInternal : ConfigNode := .node [] [("INTERNAL", .node [] [])]

/-- C7: what the code actually emits for props.  (1) `add_prop_node` writes
exactly one PROP block whose value keys are
`name, position, position, scale` — the swizzled rotation is written under
the key "position" (line 278), and no "rotation" key exists.  (2) An
INTERNAL-type model with two captured props gets exactly two PROP blocks.
(3) A PART-type model writes one INTERNAL block and — contrary to scenario
D — zero PROP blocks (the PART branch of `generate_cfg` never emits props).
-/
theorem add_prop_node_keys :
    (((add_prop_node (ConfigNode.node [] []) propP).GetNode "PROP").map
        (fun n => n.values.map Prod.fst)) =
      some ["name", "position", "position", "scale"] ∧
    (((generate_cfg (fun m _ => m) (some tmplInternal) .NONE
          muInternalWithProps).bind
        (fun c => c.GetNode "INTERNAL")).map
      (fun n => (n.nodes.filter (fun p => p.1 == "PROP")).length)) = some 2 ∧
    (((generate_cfg (fun m _ => m) (some tmplPart) .NONE muPartWithProps).bind
        (fun c => c.GetNode "PART")).map
      (fun n =>
        ((n.nodes.filter (fun p => p.1 == "INTERNAL")).length,
         (n.nodes.filter (fun p => p.1 == "PROP")).length))) = some (1, 0) := by
  refine ⟨rfl, rfl, rfl⟩

/-! ## C1: the group-instance location shift and its restoration -/

theorem BObj.withLocation_restore (o : BObj) (v : V3) :
    (o.withLocation v).withLocation o.location = o := by
  cases o
  rfl

/-- C1 (amended): when every nested build in the group loop returns
normally, each group object's location is restored to its pre-traversal
value (the post-loop scene states equal the input objects).  The
exception path is not covered: see the counterexample. -/
theorem build_group_children_restores (ext : Externals) (sp : Special)
    (gname : String) (goffset : V3) (path : String) :
    ∀ (gobjs : List BObj) (mu : Mu) (cs : List MuObject),
      (build_group_children ext sp gname goffset mu path gobjs).2.2 = .ok cs →
      (build_group_children ext sp gname goffset mu path gobjs).1 = gobjs := by
  intro gobjs
  induction gobjs with
  | nil => intro mu cs _; rfl
  | cons o rest ih =>
      intro mu cs h
      simp only [build_group_children] at h ⊢
      cases hg : is_group_root gname o.ancestry with
      | true =>
        rw [hg] at h
        rw [if_pos rfl] at h ⊢
        cases hmk : make_obj_at ext sp mu (some (o.location.sub goffset)) o path with
        | mk mu1 r =>
          rw [hmk] at h
          cases r with
          | error e => dsimp only at h; exact Except.noConfusion h
          | ok child =>
              dsimp only at h ⊢
              cases hrec : build_group_children ext sp gname goffset mu1 path rest with
              | mk posts rest2 =>
                rw [hrec] at h
                cases rest2 with
                | mk mu2 r2 =>
                  cases r2 with
                  | error e => dsimp only at h; exact Except.noConfusion h
                  | ok cs2 =>
                      dsimp only at h ⊢
                      simp only [List.cons.injEq]
                      constructor
                      · exact BObj.withLocation_restore o (o.location.sub goffset)
                      · have := ih mu1 cs2
                        rw [hrec] at this
                        exact this rfl
      | false =>
        rw [hg] at h
        rw [if_neg (by simp)] at h ⊢
        cases hrec : build_group_children ext sp gname goffset mu path rest with
        | mk posts rest2 =>
          rw [hrec] at h
          cases rest2 with
          | mk mu1 r =>
            cases r with
            | error e => dsimp only at h; exact Except.noConfusion h
            | ok cs2 =>
                dsimp only at h ⊢
                simp only [List.cons.injEq, true_and]
                have := ih mu cs2
                rw [hrec] at this
                exact this rfl

/-- The node built for `meshObj` while its location is shifted by the group
offset (1,0,0). -/
def meshNodeShifted : MuObject :=
  .mk { transform := ⟨"m", meshObj.location.sub ⟨1, 0, 0⟩, Quat.one, V3.ones⟩
        tag_and_layer := ⟨"", 0⟩
        shared_mesh := some ⟨0⟩ } []

/-- C1 counterexample: when the nested build raises (the external mesh
builder fails), the group object's location is NOT restored — the loop's
post-state keeps the shifted location (4,6,7) while the pre-traversal
location was (5,6,7); there is no try/finally around lines 201–204. -/
theorem build_group_children_no_restore_on_raise :
    (build_group_children extFailMesh [] "grp" ⟨1, 0, 0⟩ mu0 "p" [meshObj]).2.2 =
      .error "boom" ∧
    (build_group_children extFailMesh [] "grp" ⟨1, 0, 0⟩ mu0 "p"
        [meshObj]).1.map BObj.location = [meshObj.location.sub ⟨1, 0, 0⟩] ∧
    (meshObj.location.sub ⟨1, 0, 0⟩ ≠ meshObj.location) :=
  ⟨rfl, rfl, by
    simp only [meshObj, BObj.location, BObj.core, V3.sub, ne_eq, V3.mk.injEq]
    norm_num⟩

/-- C1 witness: on a successful nested build the location of the group
object is restored (post-state list equals the input objects). -/
theorem build_group_children_restores_witness :
    (build_group_children extKeep [] "grp" ⟨1, 0, 0⟩ mu0 "p" [meshObj]).2.2 =
      .ok [meshNodeShifted] ∧
    (build_group_children extKeep [] "grp" ⟨1, 0, 0⟩ mu0 "p" [meshObj]).1 =
      [meshObj] :=
  ⟨rfl, build_group_children_restores extKeep [] "grp" ⟨1, 0, 0⟩ "p" [meshObj]
    mu0 [meshNodeShifted] rfl⟩

/-! ## C2: collider-bearing objects and the output tree -/

/-- Projection: the node produced by a build, if any. -/
def builtNode : Except String (Option MuObject) → Option MuObject
  | .ok s => s
  | .error _ => none

/-- C2 counterexample: a collider-bearing object passed directly as the
root of the build IS emitted as a tree node (line 207's branch merely
skips the data dispatch), and no collider record is created for it at all —
contradicting "the object never appears as a node in the output tree ...
including one passed directly as the root of the build". -/
theorem make_obj_collider_root_is_node :
    colliderSet (mkColObj "c") = true ∧
    (builtNode (make_obj extKeep [] mu0 (mkColObj "c") "").2).map
        (fun n => n.parts.collider) = some none := ⟨rfl, rfl⟩

/-- C2 (amended): a collider-bearing child that no special handler claims
is skipped by the children loop: it contributes no tree node (and is never
recursed into), and its collider record only flows into the parent's
collider field (overwritten by any later collider child).  The root of the
build is the exception recorded in the counterexample. -/
theorem build_children_collider_child (ext : Externals) (sp : Special)
    (mu : Mu) (path : String) (o : BObj) (rest : List BObj) (col : MuCollider)
    (hh : lookupHandler sp o.muprops.modelType = none)
    (hc : colliderSet o = true)
    (hmc : ext.make_collider o = .ok col) :
    build_children ext sp mu path (o :: rest) =
      (match build_children ext sp mu path rest with
       | (mu2, .error e) => (mu2, .error e)
       | (mu2, .ok (kids, lastCol)) =>
           (mu2, .ok (kids,
             match lastCol with
             | some c => some c
             | none => some col))) := by
  simp only [build_children, hh, hc, hmc, Bool.false_eq_true, if_false, if_true]

/-- C2 witness: a concrete collider child is dropped from the child list
while its record lands in the parent's collider slot. -/
theorem build_children_collider_child_witness :
    build_children extKeep [] mu0 "p" [mkColObj "cc"] =
      (mu0, .ok ([], some ⟨2⟩)) :=
  (build_children_collider_child extKeep [] mu0 "p" (mkColObj "cc") [] ⟨2⟩
    rfl rfl rfl).trans rfl

/-! ## C10: multiple collider children overwrite the parent's collider -/

theorem getLast_eq_match {α : Type} (a : α) (l : List α) :
    (a :: l).getLast? =
      (match l.getLast? with
       | some c => some c
       | none => some a) := by
  cases l with
  | nil => rfl
  | cons b bs =>
      rw [List.getLast?_cons_cons]
      have hs : ((b :: bs).getLast?).isSome := by
        simp [List.getLast?_isSome]
      obtain ⟨c, hc⟩ := Option.isSome_iff_exists.mp hs
      rw [hc]

theorem build_children_all_colliders (ext : Externals) (f : BObj → MuCollider)
    (hmc : ∀ o, ext.make_collider o = .ok (f o)) (path : String) :
    ∀ (cs : List BObj) (mu : Mu), (∀ c ∈ cs, colliderSet c = true) →
      build_children ext [] mu path cs = (mu, .ok ([], (cs.map f).getLast?)) := by
  intro cs
  induction cs with
  | nil => intro mu _; rfl
  | cons o rest ih =>
      intro mu h
      have hc := h o (List.mem_cons_self o rest)
      have hrest : ∀ c ∈ rest, colliderSet c = true :=
        fun c hm => h c (List.mem_cons_of_mem o hm)
      simp only [build_children, lookupHandler, List.find?, Option.map_none',
        hc, hmc o, ih mu hrest, Bool.false_eq_true, if_false, if_true,
        List.map_cons]
      rw [getLast_eq_match (f o) (rest.map f)]
      cases (rest.map f).getLast? <;> rfl

/-- `markerStep` on an object that is not an attachment-node marker does
not drop the node and leaves the transform unchanged. -/
theorem markerStep_nonmarker (ext : Externals) (mu1 : Mu) (o : BObj)
    (t : MuTransform)
    (h : (o.data.isNone && isNodeMarkerName (strip_nnn o.name)) = false) :
    (markerStep ext mu1 o t).2 = (t, false) := by
  unfold markerStep
  rw [h]
  simp only [Bool.false_eq_true, if_false]
  split
  · rfl
  · rfl

theorem branchStep_none (parts0 : MuObjParts)
    (gR : List BObj × Mu × Except String (List MuObject))
    (rd : Mu × Except String MuObjParts) :
    branchStep none parts0 gR rd =
      (gR.2.1, gR.2.2.map (fun cs => (parts0, cs))) := rfl

/-- C10: a parent (here an empty with no group reference) whose children
are all collider-bearing and unclaimed by special handlers ends up with the
collider field holding only the LAST child's record; the earlier collider
records are discarded, and none of the children appear as tree nodes. -/
theorem make_obj_last_collider_wins (ext : Externals) (f : BObj → MuCollider)
    (mu : Mu) (path : String) (core : BObjCore) (childs : List BObj)
    (hmc : ∀ o, ext.make_collider o = .ok (f o))
    (hdata : core.data = none)
    (hmark : isNodeMarkerName (strip_nnn core.name) = false)
    (hkids : ∀ c ∈ childs, colliderSet c = true) :
    (builtNode (make_obj ext [] mu (.mk core none childs) path).2).map
        (fun n => (n.parts.collider, n.children)) =
      some ((childs.map f).getLast?, []) := by
  have hcond : ((BObj.mk core none childs).data.isNone &&
      isNodeMarkerName (strip_nnn (BObj.mk core none childs).name)) = false := by
    have h1 : (BObj.mk core none childs).data = core.data := rfl
    have h2 : (BObj.mk core none childs).name = core.name := rfl
    rw [h1, hdata, h2, hmark]
    rfl
  rw [make_obj, make_obj_at]
  dsimp only [effObj]
  rw [markerStep_nonmarker _ _ _ _ hcond]
  rw [if_neg (by simp)]
  rw [hdata, branchStep_none]
  dsimp only
  rw [build_children_all_colliders ext f hmc _ childs _ hkids]
  rfl

def parentCore : BObjCore := ⟨"parent", V3.zero, Quat.one, V3.ones, none, defProps, []⟩

/-- C10 witness: two collider children "ccc" and "dd" — the parent node
keeps only the record of "dd" (the last one) and has no child nodes. -/
theorem make_obj_last_collider_wins_witness :
    (builtNode (make_obj extKeep [] mu0
        (.mk parentCore none [mkColObj "ccc", mkColObj "dd"]) "").2).map
        (fun n => (n.parts.collider, n.children)) =
      some (some ⟨2⟩, []) :=
  (make_obj_last_collider_wins extKeep (fun o => ⟨o.name.length⟩) mu0 ""
    parentCore [mkColObj "ccc", mkColObj "dd"] (fun _ => rfl) rfl rfl
    (by decide)).trans rfl

/-! ## C8: `None` is returned exactly for declined attach-node markers -/

theorem markerStep_dropped (ext : Externals) (mu1 : Mu) (o : BObj)
    (t : MuTransform) :
    (markerStep ext mu1 o t).2.2 = declinedMarker ext o := by
  unfold markerStep declinedMarker
  cases h1 : o.data.isNone && isNodeMarkerName (strip_nnn o.name) with
  | true =>
      rw [if_pos rfl]
      dsimp only
      cases hk : ext.keep_transform (ext.mkAttachNode o) with
      | true => rw [if_pos rfl]; rfl
      | false => rw [if_neg (by simp)]; rfl
  | false =>
      rw [if_neg (by simp)]
      simp only [Bool.false_and]
      split
      · rfl
      · rfl

theorem markerStep_declined (ext : Externals) (mu1 : Mu) (o : BObj)
    (t : MuTransform) (h : declinedMarker ext o = true) :
    markerStep ext mu1 o t =
      ({ mu1 with nodes := mu1.nodes ++ [ext.mkAttachNode o] }, t, true) := by
  unfold declinedMarker at h
  rw [Bool.and_eq_true, Bool.and_eq_true] at h
  obtain ⟨⟨hd, hm⟩, hk⟩ := h
  rw [Bool.not_eq_true'] at hk
  unfold markerStep
  rw [hd, hm, if_pos (show (true && true) = true from rfl)]
  dsimp only
  rw [hk, if_neg (by simp)]

theorem markerStep_kept (ext : Externals) (mu1 : Mu) (o : BObj)
    (t : MuTransform)
    (h1 : (o.data.isNone && isNodeMarkerName (strip_nnn o.name)) = true)
    (hk : ext.keep_transform (ext.mkAttachNode o) = true) :
    markerStep ext mu1 o t =
      ({ mu1 with nodes := mu1.nodes ++ [ext.mkAttachNode o] },
       { t with localRotation := t.localRotation.mul rotAttach }, false) := by
  unfold markerStep
  rw [h1, if_pos rfl]
  dsimp only
  rw [hk, if_pos rfl]

theorem finishStep_ne_ok_none
    (branchR : Mu × Except String (MuObjParts × List MuObject))
    (bc : Mu × Except String (List MuObject × Option MuCollider)) :
    (finishStep branchR bc).2 ≠ .ok none := by
  unfold finishStep
  cases hb : branchR.2 with
  | error e => simp
  | ok p =>
      cases p with
      | mk parts1 groupKids =>
          cases hc : bc.2 with
          | error e => simp
          | ok q => cases q with | mk kids lastCol => simp

/-- C8: the tree builder returns `None` (while completing normally) exactly
for an attachment-node marker that declines to keep its transform; and for
such a marker exactly one AttachNode record is appended to the model's
attachment-node list. -/
theorem make_obj_none_iff (ext : Externals) (sp : Special) (mu : Mu)
    (obj : BObj) (path : String) :
    ((make_obj ext sp mu obj path).2 = .ok none ↔ declinedMarker ext obj = true) ∧
    (declinedMarker ext obj = true →
      (make_obj ext sp mu obj path).1.nodes = mu.nodes ++ [ext.mkAttachNode obj]) := by
  cases obj with
  | mk core dupli childs =>
    have main : ∀ (du : Option (String × V3 × List BObj)),
        ((make_obj ext sp mu (.mk core du childs) path).2 = .ok none ↔
          declinedMarker ext (.mk core du childs) = true) ∧
        (declinedMarker ext (.mk core du childs) = true →
          (make_obj ext sp mu (.mk core du childs) path).1.nodes =
            mu.nodes ++ [ext.mkAttachNode (.mk core du childs)]) := by
      intro du
      cases du with
      | none =>
          rw [make_obj, make_obj_at]
          dsimp only [effObj]
          cases hd : declinedMarker ext (BObj.mk core none childs) with
          | true =>
              rw [markerStep_declined ext _ _ _ hd]
              exact ⟨by simp, fun _ => rfl⟩
          | false =>
              rw [if_neg (by rw [markerStep_dropped, hd]; simp)]
              exact ⟨⟨fun hcontra => absurd hcontra (finishStep_ne_ok_none _ _),
                fun hcontra => absurd hcontra (by simp)⟩,
                fun hcontra => absurd hcontra (by simp)⟩
      | some g =>
          obtain ⟨gname, goffset, gobjs⟩ := g
          rw [make_obj, make_obj_at]
          dsimp only [effObj]
          cases hd : declinedMarker ext
              (BObj.mk core (some (gname, goffset, gobjs)) childs) with
          | true =>
              rw [markerStep_declined ext _ _ _ hd]
              exact ⟨by simp, fun _ => rfl⟩
          | false =>
              rw [if_neg (by rw [markerStep_dropped, hd]; simp)]
              exact ⟨⟨fun hcontra => absurd hcontra (finishStep_ne_ok_none _ _),
                fun hcontra => absurd hcontra (by simp)⟩,
                fun hcontra => absurd hcontra (by simp)⟩
    exact main dupli

/-- C8 witness: a `node_`-prefixed empty whose convention declines the
transform yields no node and exactly one AttachNode entry. -/
theorem make_obj_none_iff_witness :
    ((make_obj extDecline [] mu0 (mkEmpty "node_top" []) "").2 = .ok none ↔
      declinedMarker extDecline (mkEmpty "node_top" []) = true) ∧
    (declinedMarker extDecline (mkEmpty "node_top" []) = true →
      (make_obj extDecline [] mu0 (mkEmpty "node_top" []) "").1.nodes =
        mu0.nodes ++ [extDecline.mkAttachNode (mkEmpty "node_top" [])]) :=
  make_obj_none_iff extDecline [] mu0 (mkEmpty "node_top" []) ""

/-! ## C9: declined markers remain registered in the path index -/

theorem dictLookup_cons_pos {α : Type} (p : String × α)
    (rest : List (String × α)) (k : String) (hp : (p.1 == k) = true) :
    dictLookup (p :: rest) k = some p.2 := by
  simp only [dictLookup, List.find?, hp]
  rfl

theorem dictLookup_cons_neg {α : Type} (p : String × α)
    (rest : List (String × α)) (k : String) (hp : (p.1 == k) = false) :
    dictLookup (p :: rest) k = dictLookup rest k := by
  simp only [dictLookup, List.find?, hp]

theorem dictLookup_map_update {α : Type} (d : List (String × α)) (k : String)
    (v : α) (h : dictLookup d k ≠ none) :
    dictLookup (d.map (fun p => if p.1 == k then (p.1, v) else p)) k = some v := by
  induction d with
  | nil => exact absurd rfl h
  | cons p rest ih =>
      by_cases hp : (p.1 == k) = true
      · rw [List.map_cons, if_pos hp, dictLookup_cons_pos (p.1, v) _ k hp]
      · rw [Bool.not_eq_true] at hp
        rw [dictLookup_cons_neg _ _ _ hp] at h
        rw [List.map_cons, if_neg (by rw [hp]; simp),
          dictLookup_cons_neg _ _ _ hp]
        exact ih h

theorem dictLookup_dictInsert_self {α : Type} (d : List (String × α))
    (k : String) (v : α) :
    dictLookup (dictInsert d k v) k = some v := by
  by_cases hl : dictLookup d k = none
  · rw [dictInsert_fresh d k v hl, dictLookup_append_fresh d k v hl]
  · have hfind : (d.find? (fun p => p.1 == k)).isSome = true := by
      unfold dictLookup at hl
      cases hf : d.find? (fun p => p.1 == k) with
      | none => rw [hf] at hl; simp at hl
      | some q => rfl
    unfold dictInsert
    rw [if_pos hfind]
    exact dictLookup_map_update d k v hl

/-- The registration-time value stored into the path index at line 172. -/
def registrationStub (obj : BObj) : MuObject :=
  MuObject.mk { transform := make_transform obj, tag_and_layer := make_tag_and_layer obj } []

/-- C9: for an attachment-node marker that declines to keep its transform,
the builder returns `none` — so nothing is appended to any parent's child
list — yet the marker's full path was already registered in the model's
path index (line 172 runs before the early return at line 180), mapping it
to the registration-time node object, which is reachable from no returned
tree node. -/
theorem make_obj_declined_registered (ext : Externals) (sp : Special)
    (mu : Mu) (obj : BObj) (path : String)
    (h : declinedMarker ext obj = true) :
    (make_obj ext sp mu obj path).2 = .ok none ∧
    dictLookup (make_obj ext sp mu obj path).1.object_paths
        (joinPath path (strip_nnn obj.name)) = some (registrationStub obj) := by
  cases obj with
  | mk core dupli childs =>
    cases dupli with
    | none =>
        rw [make_obj, make_obj_at]
        dsimp only [effObj]
        rw [markerStep_declined ext _ _ _ h]
        rw [if_pos rfl]
        exact ⟨rfl, dictLookup_dictInsert_self _ _ _⟩
    | some g =>
        obtain ⟨gname, goffset, gobjs⟩ := g
        rw [make_obj, make_obj_at]
        dsimp only [effObj]
        rw [markerStep_declined ext _ _ _ h]
        rw [if_pos rfl]
        exact ⟨rfl, dictLookup_dictInsert_self _ _ _⟩

/-- C9 witness: the declined marker `node_top` returns no node while its
path "node_top" is present in the path index. -/
theorem make_obj_declined_registered_witness :
    (make_obj extDecline [] mu0 (mkEmpty "node_top" []) "").2 = .ok none ∧
    dictLookup (make_obj extDecline [] mu0 (mkEmpty "node_top" []) "").1.object_paths
        (joinPath "" (strip_nnn (mkEmpty "node_top" []).name)) =
      some (registrationStub (mkEmpty "node_top" [])) :=
  make_obj_declined_registered extDecline [] mu0 (mkEmpty "node_top" []) "" (by rfl)

/-! ## C6: exactly one role-specific rotation correction -/

theorem K2.mul_k2one (x : K2) : x.mul K2.one = x := by
  cases x with
  | mk a b => simp [K2.mul, K2.one]

theorem K2.mul_zero (x : K2) : x.mul K2.zero = K2.zero := by
  cases x with
  | mk a b => simp [K2.mul, K2.zero]

theorem K2.add_zero (x : K2) : x.add K2.zero = x := by
  cases x with
  | mk a b => simp [K2.add, K2.zero]

theorem K2.zero_add (x : K2) : K2.zero.add x = x := by
  cases x with
  | mk a b => simp [K2.add, K2.zero]

theorem K2.neg_zero : K2.zero.neg = K2.zero := by
  simp [K2.neg, K2.zero]

theorem Quat.mul_one (q : Quat) : q.mul Quat.one = q := by
  cases q with
  | mk w x y z =>
      simp only [Quat.mul, Quat.one, K2.mul_k2one, K2.mul_zero, K2.neg_zero,
        K2.add_zero, K2.zero_add]

/-- The correction applied by the data dispatch, as a function of role. -/
def dispatchCorrection (o : BObj) : Quat :=
  if colliderSet o then Quat.one
  else
    match o.data with
    | some (.light _) => rotLightCam
    | some (.camera _) => rotLightCam
    | _ => Quat.one

theorem dataDispatch_ok_rotation (ext : Externals) (mu2 : Mu) (o : BObj)
    (parts0 : MuObjParts) (t2 : MuTransform) (parts1 : MuObjParts)
    (hp : parts0.transform = t2)
    (h : (dataDispatch ext mu2 o parts0 t2).2 = .ok parts1) :
    parts1.transform.localRotation =
      t2.localRotation.mul (dispatchCorrection o) := by
  unfold dataDispatch at h
  unfold dispatchCorrection
  cases hcol : colliderSet o with
  | true =>
      rw [hcol] at h
      rw [if_pos rfl] at h
      rw [if_pos rfl]
      cases h
      rw [hp, Quat.mul_one]
  | false =>
      rw [hcol] at h
      rw [if_neg (by simp)] at h
      rw [if_neg (by simp)]
      cases hd : o.data with
      | none =>
          rw [hd] at h
          dsimp only at h
          cases h
          rw [hp, Quat.mul_one]
      | some bdata =>
          rw [hd] at h
          cases bdata with
          | mesh md =>
              dsimp only at h
              cases hmm : ext.make_mesh o with
              | error e => rw [hmm] at h; exact absurd h (by simp)
              | ok m =>
                  rw [hmm] at h
                  dsimp only at h
                  cases h
                  rw [hp, Quat.mul_one]
          | light l =>
              dsimp only at h
              cases hml : make_light l with
              | error e => rw [hml] at h; exact absurd h (by simp)
              | ok ml =>
                  rw [hml] at h
                  dsimp only at h
                  cases h
                  rfl
          | camera c =>
              dsimp only at h
              cases h
              rfl
          | other =>
              dsimp only at h
              cases h
              rw [hp, Quat.mul_one]

theorem finishStep_ok_some
    (branchR : Mu × Except String (MuObjParts × List MuObject))
    (bc : Mu × Except String (List MuObject × Option MuCollider))
    (node : MuObject) (h : (finishStep branchR bc).2 = .ok (some node)) :
    ∃ parts1 groupKids kids lastCol,
      branchR.2 = .ok (parts1, groupKids) ∧ bc.2 = .ok (kids, lastCol) ∧
      node = MuObject.mk { parts1 with collider := lastCol }
        (groupKids ++ kids) := by
  unfold finishStep at h
  cases hb : branchR.2 with
  | error e => rw [hb] at h; exact absurd h (by simp)
  | ok p =>
      rw [hb] at h
      cases p with
      | mk parts1 groupKids =>
          cases hc : bc.2 with
          | error e => rw [hc] at h; exact absurd h (by simp)
          | ok q =>
              rw [hc] at h
              cases q with
              | mk kids lastCol =>
                  dsimp only at h
                  rw [Except.ok.injEq, Option.some.injEq] at h
                  exact ⟨parts1, groupKids, kids, lastCol, rfl, rfl, h.symm⟩

theorem branchStep_some (b : BData) (parts0 : MuObjParts)
    (gR : List BObj × Mu × Except String (List MuObject))
    (rd : Mu × Except String MuObjParts) :
    branchStep (some b) parts0 gR rd = (rd.1, rd.2.map (fun p => (p, []))) := by
  unfold branchStep
  rw [if_neg (by simp)]

theorem except_map_eq_ok {ε α β : Type} (f : α → β) (x : Except ε α) (y : β)
    (h : x.map f = .ok y) : ∃ a, x = .ok a ∧ y = f a := by
  cases x with
  | error e => simp [Except.map] at h
  | ok a =>
      simp only [Except.map, Except.ok.injEq] at h
      exact ⟨a, rfl, h.symm⟩

/-- C6: whenever the builder returns a populated node, the node's local
rotation is the object's authored rotation right-multiplied by exactly the
role's correction (`correctionFor`): +90° about X for kept attachment-node
markers, −90° about X for lights and cameras, and the identity quaternion
for every other role — never a different role's correction and never more
than one. -/
theorem make_obj_rotation_correction (ext : Externals) (sp : Special)
    (mu : Mu) (obj : BObj) (path : String) (node : MuObject)
    (h : (make_obj ext sp mu obj path).2 = .ok (some node)) :
    node.parts.transform.localRotation =
      obj.rotationQ.mul (correctionFor obj) := by
  cases obj with
  | mk core dupli childs =>
    cases dupli with
    | none =>
        rw [make_obj] at h
        rw [make_obj_at] at h
        dsimp only [effObj] at h
        cases hm : ((BObj.mk core none childs).data.isNone &&
            isNodeMarkerName (strip_nnn (BObj.mk core none childs).name)) with
        | true =>
            cases hk : ext.keep_transform (ext.mkAttachNode (BObj.mk core none childs)) with
            | false =>
                have hdecl : declinedMarker ext (BObj.mk core none childs) = true := by
                  unfold declinedMarker
                  rw [hm, hk]
                  rfl
                rw [markerStep_declined ext _ _ _ hdecl] at h
                rw [if_pos rfl] at h
                exact absurd h (by simp)
            | true =>
                rw [markerStep_kept ext _ _ _ hm hk] at h
                rw [if_neg (by simp)] at h
                have hm2 := hm
                rw [Bool.and_eq_true] at hm2
                have hdn : (BObj.mk core none childs).data.isNone = true := hm2.1
                have hdata : core.data = none := Option.isNone_iff_eq_none.mp hdn
                rw [hdata, branchStep_none] at h
                obtain ⟨parts1, gk, kids, lc, hbr, hbc, hnode⟩ :=
                  finishStep_ok_some _ _ _ h
                dsimp only at hbr
                obtain ⟨cs, hg, hy⟩ := except_map_eq_ok _ _ _ hbr
                rw [Prod.mk.injEq] at hy
                subst hnode
                have hcf : correctionFor (BObj.mk core none childs) = rotAttach := by
                  unfold correctionFor
                  rw [hm, if_pos rfl]
                rw [hcf, hy.1]
                rfl
        | false =>
            rw [markerStep_nonmarker ext _ _ _ hm] at h
            rw [if_neg (by simp)] at h
            cases hdata : core.data with
            | none =>
                rw [hdata, branchStep_none] at h
                obtain ⟨parts1, gk, kids, lc, hbr, hbc, hnode⟩ :=
                  finishStep_ok_some _ _ _ h
                dsimp only at hbr
                obtain ⟨cs, hg, hy⟩ := except_map_eq_ok _ _ _ hbr
                rw [Prod.mk.injEq] at hy
                subst hnode
                have hcf : correctionFor (BObj.mk core none childs) = Quat.one := by
                  unfold correctionFor
                  rw [hm, if_neg (by simp)]
                  cases hcol : colliderSet (BObj.mk core none childs) with
                  | true => rw [if_pos rfl]
                  | false =>
                      rw [if_neg (by simp)]
                      rw [show (BObj.mk core none childs).data = core.data from rfl, hdata]
                rw [hcf, Quat.mul_one, hy.1]
                rfl
            | some bdata =>
                rw [hdata, branchStep_some] at h
                obtain ⟨parts1, gk, kids, lc, hbr, hbc, hnode⟩ :=
                  finishStep_ok_some _ _ _ h
                dsimp only at hbr
                obtain ⟨p1, hx, hy⟩ := except_map_eq_ok _ _ _ hbr
                rw [Prod.mk.injEq] at hy
                subst hnode
                have hrot := dataDispatch_ok_rotation ext _ _ _ _ _ rfl hx
                have hcf : correctionFor (BObj.mk core none childs) =
                    dispatchCorrection (BObj.mk core none childs) := by
                  unfold correctionFor dispatchCorrection
                  rw [hm, if_neg (by simp)]
                rw [hcf, hy.1]
                exact hrot
    | some g =>
        obtain ⟨gname, goffset, gobjs⟩ := g
        rw [make_obj] at h
        rw [make_obj_at] at h
        dsimp only [effObj] at h
        cases hm : ((BObj.mk core (some (gname, goffset, gobjs)) childs).data.isNone &&
            isNodeMarkerName (strip_nnn (BObj.mk core (some (gname, goffset, gobjs)) childs).name)) with
        | true =>
            cases hk : ext.keep_transform (ext.mkAttachNode (BObj.mk core (some (gname, goffset, gobjs)) childs)) with
            | false =>
                have hdecl : declinedMarker ext (BObj.mk core (some (gname, goffset, gobjs)) childs) = true := by
                  unfold declinedMarker
                  rw [hm, hk]
                  rfl
                rw [markerStep_declined ext _ _ _ hdecl] at h
                rw [if_pos rfl] at h
                exact absurd h (by simp)
            | true =>
                rw [markerStep_kept ext _ _ _ hm hk] at h
                rw [if_neg (by simp)] at h
                have hm2 := hm
                rw [Bool.and_eq_true] at hm2
                have hdn : (BObj.mk core (some (gname, goffset, gobjs)) childs).data.isNone = true := hm2.1
                have hdata : core.data = none := Option.isNone_iff_eq_none.mp hdn
                rw [hdata, branchStep_none] at h
                obtain ⟨parts1, gk, kids, lc, hbr, hbc, hnode⟩ :=
                  finishStep_ok_some _ _ _ h
                dsimp only at hbr
                obtain ⟨cs, hg, hy⟩ := except_map_eq_ok _ _ _ hbr
                rw [Prod.mk.injEq] at hy
                subst hnode
                have hcf : correctionFor (BObj.mk core (some (gname, goffset, gobjs)) childs) = rotAttach := by
                  unfold correctionFor
                  rw [hm, if_pos rfl]
                rw [hcf, hy.1]
                rfl
        | false =>
            rw [markerStep_nonmarker ext _ _ _ hm] at h
            rw [if_neg (by simp)] at h
            cases hdata : core.data with
            | none =>
                rw [hdata, branchStep_none] at h
                obtain ⟨parts1, gk, kids, lc, hbr, hbc, hnode⟩ :=
                  finishStep_ok_some _ _ _ h
                dsimp only at hbr
                obtain ⟨cs, hg, hy⟩ := except_map_eq_ok _ _ _ hbr
                rw [Prod.mk.injEq] at hy
                subst hnode
                have hcf : correctionFor (BObj.mk core (some (gname, goffset, gobjs)) childs) = Quat.one := by
                  unfold correctionFor
                  rw [hm, if_neg (by simp)]
                  cases hcol : colliderSet (BObj.mk core (some (gname, goffset, gobjs)) childs) with
                  | true => rw [if_pos rfl]
                  | false =>
                      rw [if_neg (by simp)]
                      rw [show (BObj.mk core (some (gname, goffset, gobjs)) childs).data = core.data from rfl, hdata]
                rw [hcf, Quat.mul_one, hy.1]
                rfl
            | some bdata =>
                rw [hdata, branchStep_some] at h
                obtain ⟨parts1, gk, kids, lc, hbr, hbc, hnode⟩ :=
                  finishStep_ok_some _ _ _ h
                dsimp only at hbr
                obtain ⟨p1, hx, hy⟩ := except_map_eq_ok _ _ _ hbr
                rw [Prod.mk.injEq] at hy
                subst hnode
                have hrot := dataDispatch_ok_rotation ext _ _ _ _ _ rfl hx
                have hcf : correctionFor (BObj.mk core (some (gname, goffset, gobjs)) childs) =
                    dispatchCorrection (BObj.mk core (some (gname, goffset, gobjs)) childs) := by
                  unfold correctionFor dispatchCorrection
                  rw [hm, if_neg (by simp)]
                rw [hcf, hy.1]
                exact hrot

/-- The node built for the spot light `l`: its rotation is the authored
rotation times the light correction. -/
def lightNode0 : MuObject :=
  .mk { transform := ⟨"l", V3.zero, q0.mul rotLightCam, V3.ones⟩
        tag_and_layer := ⟨"", 0⟩
        light := some ⟨0⟩ } []

/-- C6 witness: a concrete spot light receives exactly the light/camera
correction. -/
theorem make_obj_rotation_correction_witness :
    (make_obj extKeep [] mu0 (mkLightObj "l") "").2 = .ok (some lightNode0) ∧
    lightNode0.parts.transform.localRotation =
      (mkLightObj "l").rotationQ.mul (correctionFor (mkLightObj "l")) :=
  ⟨rfl, make_obj_rotation_correction extKeep [] mu0 (mkLightObj "l") "" lightNode0 rfl⟩

/-! ## C3: the path index — join structure, registration order, uniqueness

The auxiliary layer below establishes (i) that no step of the traversal
other than line 172's registration touches the path index, and (ii) the
string lemmas making "/"-joined paths of "/"-free names prefix-separable.
-/

theorem make_texture_paths (mu : Mu) (tex : TexRef) :
    (make_texture mu tex).1.object_paths = mu.object_paths := by
  unfold make_texture
  cases dictLookup mu.textures tex.tex with
  | some mutex => rfl
  | none => rfl

theorem make_tex_property_paths (mu : Mu) (bp : List (String × TexRef)) :
    (make_tex_property mu bp).1.object_paths = mu.object_paths := by
  unfold make_tex_property
  suffices h : ∀ (acc : Mu × List (String × MuMatTex)),
      (bp.foldl (fun acc item =>
        let r := make_texture acc.1 item.2
        (r.1, dictInsert acc.2 item.1 r.2)) acc).1.object_paths =
      acc.1.object_paths by
    exact h (mu, [])
  induction bp with
  | nil => intro acc; rfl
  | cons item rest ih =>
      intro acc
      rw [List.foldl_cons, ih]
      exact make_texture_paths acc.1 item.2

theorem make_material_paths (mu : Mu) (mat : Mat) :
    (make_material mu mat).1.object_paths = mu.object_paths := by
  unfold make_material
  exact make_tex_property_paths mu mat.textureProps

theorem intern_material_paths (mu : Mu) (mat : Mat) :
    (intern_material mu mat).1.object_paths = mu.object_paths := by
  unfold intern_material
  cases dictLookup mu.materials mat.name with
  | some m => rfl
  | none => exact make_material_paths mu mat

theorem make_renderer_foldl_paths (l : List Mat) :
    ∀ (acc : Mu × List Nat),
      (l.foldl (fun (acc : Mu × List Nat) mat =>
        if mat.shaderName ≠ "" then
          let (mu1, idx) := intern_material acc.1 mat
          (mu1, acc.2 ++ [idx])
        else acc) acc).1.object_paths = acc.1.object_paths := by
  induction l with
  | nil => intro acc; rfl
  | cons m rest ih =>
      intro acc
      rw [List.foldl_cons]
      by_cases hm : m.shaderName = ""
      · rw [if_neg (by simp [hm])]
        exact ih acc
      · rw [if_pos hm]
        rw [ih _]
        exact intern_material_paths acc.1 m

theorem make_renderer_paths (mu : Mu) (mesh : MeshData) :
    (make_renderer mu mesh).1.object_paths = mu.object_paths := by
  unfold make_renderer
  dsimp only
  split
  · exact make_renderer_foldl_paths mesh.materials (mu, [])
  · exact make_renderer_foldl_paths mesh.materials (mu, [])

theorem setOffset_paths (mu : Mu) (name : String) (v : V3) :
    (setOffset mu name v).object_paths = mu.object_paths := by
  unfold setOffset
  split
  · rfl
  · split
    · rfl
    · rfl

theorem markerStep_paths (ext : Externals) (mu1 : Mu) (o : BObj)
    (t : MuTransform) :
    (markerStep ext mu1 o t).1.object_paths = mu1.object_paths := by
  unfold markerStep
  split
  · dsimp only
    split
    · rfl
    · rfl
  · split
    · exact setOffset_paths mu1 _ _
    · rfl

theorem dataDispatch_paths (ext : Externals) (mu2 : Mu) (o : BObj)
    (parts0 : MuObjParts) (t2 : MuTransform) :
    (dataDispatch ext mu2 o parts0 t2).1.object_paths = mu2.object_paths := by
  unfold dataDispatch
  split
  · rfl
  · split
    · split
      · rfl
      · exact make_renderer_paths mu2 _
    · split
      · rfl
      · rfl
    · rfl
    · rfl
    · rfl

/-- Membership of a path in the namespace rooted at `self`: the path is
`self` itself or a "/"-extension of it. -/
def inNs (self q : String) : Prop :=
  q = self ∨ ∃ r, q = self ++ "/" ++ r

theorem slash_sep_inj : ∀ (a b r s : List Char), '/' ∉ a → '/' ∉ b →
    (r = [] ∨ r.head? = some '/') → (s = [] ∨ s.head? = some '/') →
    a ++ r = b ++ s → a = b ∧ r = s := by
  intro a
  induction a with
  | nil =>
      intro b r s _ hb hr _ h
      cases b with
      | nil => exact ⟨rfl, h⟩
      | cons c bs =>
          exfalso
          rw [List.nil_append, List.cons_append] at h
          cases hr with
          | inl hre => rw [hre] at h; exact List.noConfusion h
          | inr hrh =>
              rw [h] at hrh
              simp only [List.head?_cons, Option.some.injEq] at hrh
              exact hb (hrh ▸ List.mem_cons_self c bs)
  | cons x as ih =>
      intro b r s ha hb hr hs h
      cases b with
      | nil =>
          exfalso
          rw [List.cons_append, List.nil_append] at h
          cases hs with
          | inl hse => rw [hse] at h; exact List.noConfusion h
          | inr hsh =>
              rw [← h] at hsh
              simp only [List.head?_cons, Option.some.injEq] at hsh
              exact ha (hsh ▸ List.mem_cons_self x as)
      | cons y bs =>
          rw [List.cons_append, List.cons_append] at h
          injection h with h1 h2
          subst h1
          have hrec := ih bs r s (fun hm => ha (List.mem_cons_of_mem _ hm))
            (fun hm => hb (List.mem_cons_of_mem _ hm)) hr hs h2
          exact ⟨by rw [hrec.1], hrec.2⟩

theorem string_data_inj {x y : String} (h : x.data = y.data) : x = y := by
  cases x
  cases y
  exact congrArg String.mk h

theorem string_append_cancel_left (x y z : String) (h : x ++ y = x ++ z) :
    y = z := by
  apply string_data_inj
  have hd := congrArg String.data h
  simp only [String.data_append] at hd
  exact List.append_cancel_left hd

theorem joinPath_of_ne (p n : String) (h : p ≠ "") :
    joinPath p n = p ++ "/" ++ n := by
  unfold joinPath
  rw [if_pos h]

theorem joinPath_ne_empty (p n : String) (h : n ≠ "") : joinPath p n ≠ "" := by
  unfold joinPath
  intro hc
  split at hc
  · have hlen := congrArg String.length hc
    rw [String.length_append, String.length_append] at hlen
    have h1 : ("/" : String).length = 1 := rfl
    have h2 : ("" : String).length = 0 := rfl
    omega
  · rename_i hp
    rw [not_not] at hp
    subst hp
    have hd := congrArg String.data hc
    rw [String.data_append] at hd
    have h0 : ("" : String).data = [] := rfl
    rw [h0, List.nil_append] at hd
    exact h (string_data_inj hd)

theorem self_ne_extend (self r : String) : self ≠ self ++ "/" ++ r := by
  intro h
  have hlen := congrArg String.length h
  rw [String.length_append, String.length_append] at hlen
  have h1 : ("/" : String).length = 1 := rfl
  omega

theorem slashFree_not_mem {s : String} (h : slashFree s = true) :
    '/' ∉ s.data := by
  unfold slashFree at h
  rw [Bool.not_eq_true'] at h
  intro hm
  have ht : s.data.contains '/' = true := List.elem_eq_true_of_mem hm
  rw [ht] at h
  exact Bool.noConfusion h

/-- Any member of the namespace of `self ++ "/" ++ x` decomposes as
`(self ++ "/") ++ (x ++ ext)` with `ext` empty or "/"-headed. -/
theorem inNs_decompose {self x q : String}
    (h : inNs (self ++ "/" ++ x) q) :
    ∃ ext : String, q = (self ++ "/") ++ (x ++ ext) ∧
      (ext.data = [] ∨ ext.data.head? = some '/') := by
  cases h with
  | inl he =>
      refine ⟨"", ?_, Or.inl rfl⟩
      rw [he]
      apply string_data_inj
      simp [String.data_append]
  | inr hr =>
      obtain ⟨r, hr⟩ := hr
      refine ⟨"/" ++ r, ?_, Or.inr ?_⟩
      · rw [hr]
        apply string_data_inj
        simp [String.data_append]
      · have hd : ("/" ++ r).data = '/' :: r.data := by
          rw [String.data_append]
          rfl
        rw [hd]
        rfl

/-- Namespaces of two different "/"-free names under the same parent are
disjoint. -/
theorem inNs_join_disjoint {self a b q : String} (hself : self ≠ "")
    (hsa : slashFree a = true) (hsb : slashFree b = true) (hab : a ≠ b)
    (h1 : inNs (joinPath self a) q) (h2 : inNs (joinPath self b) q) :
    False := by
  rw [joinPath_of_ne self a hself] at h1
  rw [joinPath_of_ne self b hself] at h2
  obtain ⟨e1, hq1, he1⟩ := inNs_decompose h1
  obtain ⟨e2, hq2, he2⟩ := inNs_decompose h2
  rw [hq1] at hq2
  have hcancel := string_append_cancel_left (self ++ "/") _ _ hq2
  have hdata := congrArg String.data hcancel
  simp only [String.data_append] at hdata
  have := slash_sep_inj a.data b.data e1.data e2.data
    (slashFree_not_mem hsa) (slashFree_not_mem hsb) he1 he2 hdata
  exact hab (string_data_inj this.1)

/-- A namespace member of a child path is a strict "/"-extension of the
parent path. -/
theorem inNs_join_extend {self n q : String} (hself : self ≠ "")
    (h : inNs (joinPath self n) q) : ∃ r, q = self ++ "/" ++ r := by
  rw [joinPath_of_ne self n hself] at h
  cases h with
  | inl he => exact ⟨n, he⟩
  | inr hr =>
      obtain ⟨r, hr⟩ := hr
      refine ⟨n ++ ("/" ++ r), ?_⟩
      rw [hr]
      apply string_data_inj
      simp [String.data_append]

/-- The special-handler table leaves the path index alone (true of both
`add_internal` and `add_prop`). -/
def SpPreserves (sp : Special) : Prop :=
  ∀ p ∈ sp, ∀ (mu : Mu) (o : BObj),
    ((p.2 : Mu → BObj → Mu × Bool) mu o).1.object_paths = mu.object_paths

theorem handlerStep_paths (sp : Special) (hsp : SpPreserves sp) (mu : Mu)
    (o : BObj) :
    (match lookupHandler sp o.muprops.modelType with
     | some h => h mu o
     | none => (mu, false)).1.object_paths = mu.object_paths := by
  cases hl : lookupHandler sp o.muprops.modelType with
  | none => rfl
  | some h =>
      unfold lookupHandler at hl
      cases hf : sp.find? (fun p => p.1 == o.muprops.modelType) with
      | none => rw [hf] at hl; exact Option.noConfusion hl
      | some p =>
          rw [hf] at hl
          rw [Option.map_some', Option.some.injEq] at hl
          rw [← hl]
          exact hsp p (List.mem_of_find?_eq_some hf) mu o

theorem special_modelTypes_preserves (t : ModelType) :
    SpPreserves (special_modelTypes t) := by
  intro p hp mu o
  cases t with
  | NONE => exact absurd hp (by simp [special_modelTypes])
  | PROP => exact absurd hp (by simp [special_modelTypes])
  | PART =>
      simp only [special_modelTypes, List.mem_singleton] at hp
      subst hp
      unfold add_internal
      dsimp only
      split
      · rfl
      · rfl
  | INTERNAL =>
      simp only [special_modelTypes, List.mem_singleton] at hp
      subst hp
      rfl

theorem goodNamesList_cons (o : BObj) (rest : List BObj)
    (h : goodNamesList (o :: rest) = true) :
    goodNames o = true ∧ goodNamesList rest = true := by
  unfold goodNamesList at h
  rw [Bool.and_eq_true] at h
  exact h

theorem goodNames_elim (core : BObjCore)
    (dupli : Option (String × V3 × List BObj)) (childs : List BObj)
    (h : goodNames (.mk core dupli childs) = true) :
    (strip_nnn core.name ≠ "") ∧ slashFree (strip_nnn core.name) = true ∧
    ((match dupli with
      | some (_, _, gobjs) => gobjs.map (fun o => strip_nnn o.name)
      | none => []) ++ childs.map (fun o => strip_nnn o.name)).Nodup ∧
    (match dupli with
     | some (_, _, gobjs) => goodNamesList gobjs
     | none => true) = true ∧
    goodNamesList childs = true := by
  cases dupli with
  | none =>
      unfold goodNames at h
      rw [Bool.and_eq_true, Bool.and_eq_true, Bool.and_eq_true,
        Bool.and_eq_true] at h
      obtain ⟨⟨⟨⟨h1, h2⟩, h3⟩, h4⟩, h5⟩ := h
      exact ⟨of_decide_eq_true h1, h2, of_decide_eq_true h3, h4, h5⟩
  | some g =>
      obtain ⟨gname, goffset, gobjs⟩ := g
      unfold goodNames at h
      rw [Bool.and_eq_true, Bool.and_eq_true, Bool.and_eq_true,
        Bool.and_eq_true] at h
      obtain ⟨⟨⟨⟨h1, h2⟩, h3⟩, h4⟩, h5⟩ := h
      exact ⟨of_decide_eq_true h1, h2, of_decide_eq_true h3, h4, h5⟩

theorem goodNames_name (o : BObj) (h : goodNames o = true) :
    strip_nnn o.name ≠ "" ∧ slashFree (strip_nnn o.name) = true := by
  cases o with
  | mk core dupli childs =>
      have he := goodNames_elim core dupli childs h
      exact ⟨he.1, he.2.1⟩

theorem goodNamesList_mem (l : List BObj) (h : goodNamesList l = true)
    (o : BObj) (hm : o ∈ l) : goodNames o = true := by
  induction l with
  | nil => exact absurd hm (by simp)
  | cons x rest ih =>
      have hc := goodNamesList_cons x rest h
      cases hm with
      | head => exact hc.1
      | tail _ hm2 => exact ih hc.2 hm2

/-- Membership of a path in the union of the namespaces of a child list
under prefix `pathp`. -/
def childNs (pathp : String) (cs : List BObj) (q : String) : Prop :=
  ∃ o, o ∈ cs ∧ inNs (joinPath pathp (strip_nnn o.name)) q

theorem childNs_tail {pathp : String} {o : BObj} {rest : List BObj}
    {q : String} (h : childNs pathp rest q) : childNs pathp (o :: rest) q := by
  obtain ⟨o2, hm, hn⟩ := h
  exact ⟨o2, List.mem_cons_of_mem _ hm, hn⟩

theorem childNs_head {pathp : String} {o : BObj} {rest : List BObj}
    {q : String} (h : inNs (joinPath pathp (strip_nnn o.name)) q) :
    childNs pathp (o :: rest) q :=
  ⟨o, List.mem_cons_self _ _, h⟩

theorem dictLookup_eq_none_of_not_mem {α : Type} (d : List (String × α))
    (k : String) (h : k ∉ d.map Prod.fst) : dictLookup d k = none := by
  induction d with
  | nil => rfl
  | cons p rest ih =>
      have hne : p.1 ≠ k := fun he => h (by
        rw [List.map_cons]
        exact he ▸ List.mem_cons_self _ _)
      rw [dictLookup_cons_neg p rest k (beq_eq_false_iff_ne.mpr hne)]
      exact ih (fun hm => h (by rw [List.map_cons]; exact List.mem_cons_of_mem _ hm))

theorem registerPath_fresh (mu : Mu) (path1 : String) (t : MuTransform)
    (tl : TagLayer) (h : path1 ∉ mu.object_paths.map Prod.fst) :
    (registerPath mu path1 t tl).object_paths =
      mu.object_paths ++
        [(path1, MuObject.mk { transform := t, tag_and_layer := tl } [])] := by
  unfold registerPath
  dsimp only
  rw [dictInsert_fresh _ _ _ (dictLookup_eq_none_of_not_mem _ _ h)]

theorem effObj_name (lo : Option V3) (o : BObj) : (effObj lo o).name = o.name := by
  cases lo with
  | none => rfl
  | some v => cases o; rfl

/-! ## C3: the path index — prefix discipline, order, uniqueness -/

theorem inNs_of_childNs {pathp : String} (hp : pathp ≠ "") {l : List BObj}
    {q : String} (h : childNs pathp l q) : ∃ r, q = pathp ++ "/" ++ r := by
  obtain ⟨o, _, hn⟩ := h
  exact inNs_join_extend hp hn

theorem childNs_disjoint {pathp : String} (hp : pathp ≠ "") {l1 l2 : List BObj}
    (hg1 : goodNamesList l1 = true) (hg2 : goodNamesList l2 = true)
    (hdis : List.Disjoint (l1.map fun o => strip_nnn o.name)
      (l2.map fun o => strip_nnn o.name))
    {q : String} (hq1 : childNs pathp l1 q) (hq2 : childNs pathp l2 q) :
    False := by
  obtain ⟨o1, hm1, hn1⟩ := hq1
  obtain ⟨o2, hm2, hn2⟩ := hq2
  by_cases he : strip_nnn o1.name = strip_nnn o2.name
  · exact hdis (List.mem_map_of_mem _ hm1)
      (by rw [he]; exact List.mem_map_of_mem _ hm2)
  · exact inNs_join_disjoint hp
      (goodNames_name o1 (goodNamesList_mem l1 hg1 o1 hm1)).2
      (goodNames_name o2 (goodNamesList_mem l2 hg2 o2 hm2)).2 he hn1 hn2

theorem inNs_notin_childNs {pathp n : String} (hp : pathp ≠ "")
    (hn : slashFree n = true) {l : List BObj} (hg : goodNamesList l = true)
    (hnm : n ∉ l.map fun o => strip_nnn o.name) {q : String}
    (h1 : inNs (joinPath pathp n) q) (h2 : childNs pathp l q) : False := by
  obtain ⟨o, hm, hno⟩ := h2
  have hne2 : n ≠ strip_nnn o.name :=
    fun he => hnm (by rw [he]; exact List.mem_map_of_mem _ hm)
  exact inNs_join_disjoint hp hn
    (goodNames_name o (goodNamesList_mem l hg o hm)).2 hne2 h1 hno

theorem lookupHandler_preserves (sp : Special) (hsp : SpPreserves sp)
    (t : ModelType) (h : Mu → BObj → Mu × Bool)
    (hL : lookupHandler sp t = some h) (mu : Mu) (o : BObj) :
    (h mu o).1.object_paths = mu.object_paths := by
  unfold lookupHandler at hL
  cases hf : sp.find? (fun p => p.1 == t) with
  | none => rw [hf] at hL; exact Option.noConfusion hL
  | some p =>
      rw [hf, Option.map_some', Option.some.injEq] at hL
      rw [← hL]
      exact hsp p (List.mem_of_find?_eq_some hf) mu o

set_option maxHeartbeats 1600000 in
mutual

/-- Path-index effect of one `make_obj_at` call under collision-free names
and a state whose keys avoid the call's namespace: the call appends exactly
its own registration first, followed only by keys lying in its namespace,
with no duplicates. -/
theorem paths_make_obj_at (ext : Externals) (sp : Special)
    (hsp : SpPreserves sp) (obj : BObj) (mu : Mu) (locOv : Option V3)
    (path : String) (hg : goodNames obj = true)
    (hfree : ∀ k, k ∈ mu.object_paths.map Prod.fst →
      ¬ inNs (joinPath path (strip_nnn obj.name)) k) :
    ∃ news : List (String × MuObject),
      (make_obj_at ext sp mu locOv obj path).1.object_paths =
        mu.object_paths ++ news ∧
      news.map Prod.fst =
        joinPath path (strip_nnn obj.name) :: (news.map Prod.fst).tail ∧
      (∀ q, q ∈ news.map Prod.fst →
        inNs (joinPath path (strip_nnn obj.name)) q) ∧
      (news.map Prod.fst).Nodup := by
  cases obj with
  | mk core dupli childs =>
    cases dupli with
    | none =>
        obtain ⟨hne0, _, hnd0, _, hgc⟩ := goodNames_elim core none childs hg
        have hndc : (childs.map (fun o => strip_nnn o.name)).Nodup := by
          have h3 : (([] : List String) ++
              childs.map (fun o => strip_nnn o.name)).Nodup := hnd0
          rwa [List.nil_append] at h3
        rw [make_obj_at]
        dsimp only
        have hself : (make_transform (effObj locOv (BObj.mk core none childs))).name
            = strip_nnn ((BObj.mk core none childs).name) := by
          rw [show (make_transform (effObj locOv (BObj.mk core none childs))).name
              = strip_nnn (effObj locOv (BObj.mk core none childs)).name from rfl,
            effObj_name]
        rw [hself]
        set THIS := effObj locOv (BObj.mk core none childs) with hTHIS
        set T := make_transform THIS with hT
        set TL := make_tag_and_layer THIS with hTL
        set S := joinPath path (strip_nnn ((BObj.mk core none childs).name)) with hS
        have hne1 : strip_nnn ((BObj.mk core none childs).name) ≠ "" := hne0
        have hSne : S ≠ "" := by rw [hS]; exact joinPath_ne_empty _ _ hne1
        have hfresh : S ∉ mu.object_paths.map Prod.fst :=
          fun hmem => hfree S hmem (Or.inl rfl)
        cases hd : declinedMarker ext THIS with
        | true =>
            rw [markerStep_declined ext _ _ _ hd]
            exact ⟨_, registerPath_fresh mu S T TL hfresh, rfl,
              fun q hq => Or.inl (List.mem_singleton.mp hq),
              List.nodup_singleton S⟩
        | false =>
            rw [if_neg (by rw [markerStep_dropped, hd]; simp)]
            set M := markerStep ext (registerPath mu S T TL) THIS T with hM
            set P0 : MuObjParts :=
              { transform := M.2.1, tag_and_layer := TL } with hP0
            have hmupaths : M.1.object_paths = mu.object_paths ++
                [(S, MuObject.mk { transform := T, tag_and_layer := TL } [])] := by
              rw [hM, markerStep_paths]
              exact registerPath_fresh mu S T TL hfresh
            cases hdat : core.data with
            | none =>
                rw [branchStep_none]
                dsimp only [Except.map]
                unfold finishStep
                dsimp only
                obtain ⟨cnews, hc1, hc3, hc4⟩ :=
                  paths_build_children ext sp hsp childs M.1 S hgc hndc hSne (by
                    intro k hk hcn
                    rw [hmupaths, List.map_append, List.mem_append] at hk
                    cases hk with
                    | inl h1 => exact hfree k h1 (Or.inr (inNs_of_childNs hSne hcn))
                    | inr h2 =>
                        have hkS : k = S := by simpa using h2
                        obtain ⟨r, hr⟩ := inNs_of_childNs hSne hcn
                        rw [hkS] at hr
                        exact self_ne_extend S r hr)
                cases hbc : build_children ext sp M.1 S childs with
                | mk mu2 r2 =>
                    rw [hbc] at hc1
                    dsimp only at hc1
                    have hEX : ∃ news : List (String × MuObject),
                        mu2.object_paths = mu.object_paths ++ news ∧
                        news.map Prod.fst = S :: (news.map Prod.fst).tail ∧
                        (∀ q, q ∈ news.map Prod.fst → inNs S q) ∧
                        (news.map Prod.fst).Nodup := by
                      refine ⟨(S, MuObject.mk { transform := T, tag_and_layer := TL } []) :: cnews, ?_, rfl, ?_, ?_⟩
                      · rw [hc1, hmupaths, List.append_assoc, List.singleton_append]
                      · intro q hq
                        rw [List.map_cons, List.mem_cons] at hq
                        cases hq with
                        | inl h => exact Or.inl h
                        | inr h => exact Or.inr (inNs_of_childNs hSne (hc3 q h))
                      · rw [List.map_cons]
                        refine List.nodup_cons.mpr ⟨?_, hc4⟩
                        intro hmem
                        obtain ⟨r, hr⟩ := inNs_of_childNs hSne (hc3 S hmem)
                        exact self_ne_extend S r hr
                    cases r2 with
                    | error e => exact hEX
                    | ok p => exact hEX
            | some b =>
                rw [branchStep_some]
                dsimp only
                have hrdp : (dataDispatch ext M.1 THIS P0 M.2.1).1.object_paths =
                    mu.object_paths ++
                      [(S, MuObject.mk { transform := T, tag_and_layer := TL } [])] := by
                  rw [dataDispatch_paths]
                  exact hmupaths
                obtain ⟨cnews, hc1, hc3, hc4⟩ :=
                  paths_build_children ext sp hsp childs
                    (dataDispatch ext M.1 THIS P0 M.2.1).1 S hgc hndc hSne (by
                      intro k hk hcn
                      rw [hrdp, List.map_append, List.mem_append] at hk
                      cases hk with
                      | inl h1 => exact hfree k h1 (Or.inr (inNs_of_childNs hSne hcn))
                      | inr h2 =>
                          have hkS : k = S := by simpa using h2
                          obtain ⟨r, hr⟩ := inNs_of_childNs hSne hcn
                          rw [hkS] at hr
                          exact self_ne_extend S r hr)
                unfold finishStep
                dsimp only
                cases hrd2 : (dataDispatch ext M.1 THIS P0 M.2.1).2 with
                | error e =>
                    dsimp only [Except.map]
                    exact ⟨[(S, MuObject.mk { transform := T, tag_and_layer := TL } [])],
                      hrdp, rfl, fun q hq => Or.inl (List.mem_singleton.mp hq),
                      List.nodup_singleton S⟩
                | ok pr =>
                    dsimp only [Except.map]
                    cases hbc : build_children ext sp
                        (dataDispatch ext M.1 THIS P0 M.2.1).1 S childs with
                    | mk mu2 r2 =>
                        rw [hbc] at hc1
                        dsimp only at hc1
                        have hEX : ∃ news : List (String × MuObject),
                            mu2.object_paths = mu.object_paths ++ news ∧
                            news.map Prod.fst = S :: (news.map Prod.fst).tail ∧
                            (∀ q, q ∈ news.map Prod.fst → inNs S q) ∧
                            (news.map Prod.fst).Nodup := by
                          refine ⟨(S, MuObject.mk { transform := T, tag_and_layer := TL } []) :: cnews, ?_, rfl, ?_, ?_⟩
                          · rw [hc1, hrdp, List.append_assoc, List.singleton_append]
                          · intro q hq
                            rw [List.map_cons, List.mem_cons] at hq
                            cases hq with
                            | inl h => exact Or.inl h
                            | inr h => exact Or.inr (inNs_of_childNs hSne (hc3 q h))
                          · rw [List.map_cons]
                            refine List.nodup_cons.mpr ⟨?_, hc4⟩
                            intro hmem
                            obtain ⟨r, hr⟩ := inNs_of_childNs hSne (hc3 S hmem)
                            exact self_ne_extend S r hr
                        cases r2 with
                        | error e => exact hEX
                        | ok p => exact hEX
    | some g =>
        obtain ⟨gname, goffset, gobjs⟩ := g
        obtain ⟨hne0, _, hnd0, hgg0, hgc⟩ :=
          goodNames_elim core (some (gname, goffset, gobjs)) childs hg
        have hgg : goodNamesList gobjs = true := hgg0
        have hndgc : (gobjs.map (fun o => strip_nnn o.name) ++
            childs.map (fun o => strip_nnn o.name)).Nodup := hnd0
        obtain ⟨hndg, hndc, hdisj⟩ := List.nodup_append.mp hndgc
        rw [make_obj_at]
        dsimp only
        have hself : (make_transform (effObj locOv
            (BObj.mk core (some (gname, goffset, gobjs)) childs))).name
            = strip_nnn ((BObj.mk core (some (gname, goffset, gobjs)) childs).name) := by
          rw [show (make_transform (effObj locOv
              (BObj.mk core (some (gname, goffset, gobjs)) childs))).name
              = strip_nnn (effObj locOv
                (BObj.mk core (some (gname, goffset, gobjs)) childs)).name from rfl,
            effObj_name]
        rw [hself]
        set THIS := effObj locOv (BObj.mk core (some (gname, goffset, gobjs)) childs) with hTHIS
        set T := make_transform THIS with hT
        set TL := make_tag_and_layer THIS with hTL
        set S := joinPath path
          (strip_nnn ((BObj.mk core (some (gname, goffset, gobjs)) childs).name)) with hS
        have hne1 : strip_nnn ((BObj.mk core (some (gname, goffset, gobjs)) childs).name) ≠ "" := hne0
        have hSne : S ≠ "" := by rw [hS]; exact joinPath_ne_empty _ _ hne1
        have hfresh : S ∉ mu.object_paths.map Prod.fst :=
          fun hmem => hfree S hmem (Or.inl rfl)
        cases hd : declinedMarker ext THIS with
        | true =>
            rw [markerStep_declined ext _ _ _ hd]
            exact ⟨_, registerPath_fresh mu S T TL hfresh, rfl,
              fun q hq => Or.inl (List.mem_singleton.mp hq),
              List.nodup_singleton S⟩
        | false =>
            rw [if_neg (by rw [markerStep_dropped, hd]; simp)]
            set M := markerStep ext (registerPath mu S T TL) THIS T with hM
            set P0 : MuObjParts :=
              { transform := M.2.1, tag_and_layer := TL } with hP0
            have hmupaths : M.1.object_paths = mu.object_paths ++
                [(S, MuObject.mk { transform := T, tag_and_layer := TL } [])] := by
              rw [hM, markerStep_paths]
              exact registerPath_fresh mu S T TL hfresh
            cases hdat : core.data with
            | none =>
                rw [branchStep_none]
                dsimp only
                obtain ⟨gnews, hg1, hg3, hg4⟩ :=
                  paths_build_group_children ext sp hsp gname goffset gobjs M.1 S
                    hgg hndg hSne (by
                      intro k hk hcn
                      rw [hmupaths, List.map_append, List.mem_append] at hk
                      cases hk with
                      | inl h1 => exact hfree k h1 (Or.inr (inNs_of_childNs hSne hcn))
                      | inr h2 =>
                          have hkS : k = S := by simpa using h2
                          obtain ⟨r, hr⟩ := inNs_of_childNs hSne hcn
                          rw [hkS] at hr
                          exact self_ne_extend S r hr)
                obtain ⟨cnews, hc1, hc3, hc4⟩ :=
                  paths_build_children ext sp hsp childs
                    (build_group_children ext sp gname goffset M.1 S gobjs).2.1 S
                    hgc hndc hSne (by
                      intro k hk hcn
                      rw [hg1, hmupaths, List.map_append, List.map_append,
                        List.mem_append, List.mem_append] at hk
                      cases hk with
                      | inl h12 =>
                          cases h12 with
                          | inl h1 => exact hfree k h1 (Or.inr (inNs_of_childNs hSne hcn))
                          | inr h2 =>
                              have hkS : k = S := by simpa using h2
                              obtain ⟨r, hr⟩ := inNs_of_childNs hSne hcn
                              rw [hkS] at hr
                              exact self_ne_extend S r hr
                      | inr h3 =>
                          exact childNs_disjoint hSne hgg hgc hdisj (hg3 k h3) hcn)
                unfold finishStep
                dsimp only
                cases hg2 : (build_group_children ext sp gname goffset M.1 S gobjs).2.2 with
                | error e =>
                    dsimp only [Except.map]
                    refine ⟨(S, MuObject.mk { transform := T, tag_and_layer := TL } []) :: gnews, ?_, rfl, ?_, ?_⟩
                    · rw [hg1, hmupaths, List.append_assoc, List.singleton_append]
                    · intro q hq
                      rw [List.map_cons, List.mem_cons] at hq
                      cases hq with
                      | inl h => exact Or.inl h
                      | inr h => exact Or.inr (inNs_of_childNs hSne (hg3 q h))
                    · rw [List.map_cons]
                      refine List.nodup_cons.mpr ⟨?_, hg4⟩
                      intro hmem
                      obtain ⟨r, hr⟩ := inNs_of_childNs hSne (hg3 S hmem)
                      exact self_ne_extend S r hr
                | ok gkids =>
                    dsimp only [Except.map]
                    cases hbc : build_children ext sp
                        (build_group_children ext sp gname goffset M.1 S gobjs).2.1
                        S childs with
                    | mk mu2 r2 =>
                        rw [hbc] at hc1
                        dsimp only at hc1
                        have hEX : ∃ news : List (String × MuObject),
                            mu2.object_paths = mu.object_paths ++ news ∧
                            news.map Prod.fst = S :: (news.map Prod.fst).tail ∧
                            (∀ q, q ∈ news.map Prod.fst → inNs S q) ∧
                            (news.map Prod.fst).Nodup := by
                          refine ⟨(S, MuObject.mk { transform := T, tag_and_layer := TL } []) :: (gnews ++ cnews), ?_, rfl, ?_, ?_⟩
                          · rw [hc1, hg1, hmupaths, List.append_assoc,
                              List.append_assoc, List.singleton_append]
                          · intro q hq
                            rw [List.map_cons, List.mem_cons] at hq
                            cases hq with
                            | inl h => exact Or.inl h
                            | inr h =>
                                rw [List.map_append, List.mem_append] at h
                                cases h with
                                | inl h1 => exact Or.inr (inNs_of_childNs hSne (hg3 q h1))
                                | inr h2 => exact Or.inr (inNs_of_childNs hSne (hc3 q h2))
                          · rw [List.map_cons, List.map_append]
                            refine List.nodup_cons.mpr
                              ⟨?_, List.nodup_append.mpr ⟨hg4, hc4, ?_⟩⟩
                            · intro hmem
                              rw [List.mem_append] at hmem
                              cases hmem with
                              | inl h1 =>
                                  obtain ⟨r, hr⟩ := inNs_of_childNs hSne (hg3 S h1)
                                  exact self_ne_extend S r hr
                              | inr h2 =>
                                  obtain ⟨r, hr⟩ := inNs_of_childNs hSne (hc3 S h2)
                                  exact self_ne_extend S r hr
                            · intro a ha1 ha2
                              exact childNs_disjoint hSne hgg hgc hdisj
                                (hg3 a ha1) (hc3 a ha2)
                        cases r2 with
                        | error e => exact hEX
                        | ok p => exact hEX
            | some b =>
                rw [branchStep_some]
                dsimp only
                have hrdp : (dataDispatch ext M.1 THIS P0 M.2.1).1.object_paths =
                    mu.object_paths ++
                      [(S, MuObject.mk { transform := T, tag_and_layer := TL } [])] := by
                  rw [dataDispatch_paths]
                  exact hmupaths
                obtain ⟨cnews, hc1, hc3, hc4⟩ :=
                  paths_build_children ext sp hsp childs
                    (dataDispatch ext M.1 THIS P0 M.2.1).1 S hgc hndc hSne (by
                      intro k hk hcn
                      rw [hrdp, List.map_append, List.mem_append] at hk
                      cases hk with
                      | inl h1 => exact hfree k h1 (Or.inr (inNs_of_childNs hSne hcn))
                      | inr h2 =>
                          have hkS : k = S := by simpa using h2
                          obtain ⟨r, hr⟩ := inNs_of_childNs hSne hcn
                          rw [hkS] at hr
                          exact self_ne_extend S r hr)
                unfold finishStep
                dsimp only
                cases hrd2 : (dataDispatch ext M.1 THIS P0 M.2.1).2 with
                | error e =>
                    dsimp only [Except.map]
                    exact ⟨[(S, MuObject.mk { transform := T, tag_and_layer := TL } [])],
                      hrdp, rfl, fun q hq => Or.inl (List.mem_singleton.mp hq),
                      List.nodup_singleton S⟩
                | ok pr =>
                    dsimp only [Except.map]
                    cases hbc : build_children ext sp
                        (dataDispatch ext M.1 THIS P0 M.2.1).1 S childs with
                    | mk mu2 r2 =>
                        rw [hbc] at hc1
                        dsimp only at hc1
                        have hEX : ∃ news : List (String × MuObject),
                            mu2.object_paths = mu.object_paths ++ news ∧
                            news.map Prod.fst = S :: (news.map Prod.fst).tail ∧
                            (∀ q, q ∈ news.map Prod.fst → inNs S q) ∧
                            (news.map Prod.fst).Nodup := by
                          refine ⟨(S, MuObject.mk { transform := T, tag_and_layer := TL } []) :: cnews, ?_, rfl, ?_, ?_⟩
                          · rw [hc1, hrdp, List.append_assoc, List.singleton_append]
                          · intro q hq
                            rw [List.map_cons, List.mem_cons] at hq
                            cases hq with
                            | inl h => exact Or.inl h
                            | inr h => exact Or.inr (inNs_of_childNs hSne (hc3 q h))
                          · rw [List.map_cons]
                            refine List.nodup_cons.mpr ⟨?_, hc4⟩
                            intro hmem
                            obtain ⟨r, hr⟩ := inNs_of_childNs hSne (hc3 S hmem)
                            exact self_ne_extend S r hr
                        cases r2 with
                        | error e => exact hEX
                        | ok p => exact hEX
termination_by structural obj

/-- Path-index effect of the group-instance loop: only keys in the
namespaces of the listed group objects are appended, without duplicates. -/
theorem paths_build_group_children (ext : Externals) (sp : Special)
    (hsp : SpPreserves sp) (gname : String) (goffset : V3)
    (gobjs : List BObj) (mu : Mu) (path : String)
    (hg : goodNamesList gobjs = true)
    (hnd : (gobjs.map (fun o => strip_nnn o.name)).Nodup)
    (hne : path ≠ "")
    (hfree : ∀ k, k ∈ mu.object_paths.map Prod.fst → ¬ childNs path gobjs k) :
    ∃ news : List (String × MuObject),
      (build_group_children ext sp gname goffset mu path gobjs).2.1.object_paths =
        mu.object_paths ++ news ∧
      (∀ q, q ∈ news.map Prod.fst → childNs path gobjs q) ∧
      (news.map Prod.fst).Nodup := by
  cases gobjs with
  | nil =>
      exact ⟨[], (List.append_nil _).symm, by simp, by simp⟩
  | cons o rest =>
      obtain ⟨hgo, hgrest⟩ := goodNamesList_cons o rest hg
      rw [List.map_cons] at hnd
      obtain ⟨hnotin, hndrest⟩ := List.nodup_cons.mp hnd
      rw [build_group_children]
      cases hgr : is_group_root gname o.ancestry with
      | false =>
          rw [if_neg Bool.false_ne_true]
          obtain ⟨rnews, hr1, hr3, hr4⟩ :=
            paths_build_group_children ext sp hsp gname goffset rest mu path
              hgrest hndrest hne
              (fun k hk hcn => hfree k hk (childNs_tail hcn))
          cases hbr : build_group_children ext sp gname goffset mu path rest with
          | mk posts pr =>
              rw [hbr] at hr1
              obtain ⟨mu1, r⟩ := pr
              dsimp only at hr1
              exact ⟨rnews, hr1, fun q hq => childNs_tail (hr3 q hq), hr4⟩
      | true =>
          rw [if_pos rfl]
          dsimp only
          obtain ⟨onews, ho1, _, ho3, ho4⟩ :=
            paths_make_obj_at ext sp hsp o mu (some (o.location.sub goffset)) path hgo
              (fun k hk hin => hfree k hk (childNs_head hin))
          cases hmo : make_obj_at ext sp mu (some (o.location.sub goffset)) o path with
          | mk mu1 r =>
              rw [hmo] at ho1
              dsimp only at ho1
              cases r with
              | error e =>
                  exact ⟨onews, ho1, fun q hq => childNs_head (ho3 q hq), ho4⟩
              | ok child =>
                  dsimp only
                  obtain ⟨rnews, hr1, hr3, hr4⟩ :=
                    paths_build_group_children ext sp hsp gname goffset rest mu1 path
                      hgrest hndrest hne (by
                        intro k hk hcn
                        rw [ho1, List.map_append, List.mem_append] at hk
                        cases hk with
                        | inl h1 => exact hfree k h1 (childNs_tail hcn)
                        | inr h2 =>
                            exact inNs_notin_childNs hne (goodNames_name o hgo).2
                              hgrest hnotin (ho3 k h2) hcn)
                  cases hbr : build_group_children ext sp gname goffset mu1 path rest with
                  | mk posts pr =>
                      rw [hbr] at hr1
                      obtain ⟨mu2, r2⟩ := pr
                      dsimp only at hr1
                      have hEX : ∃ news : List (String × MuObject),
                          mu2.object_paths = mu.object_paths ++ news ∧
                          (∀ q, q ∈ news.map Prod.fst → childNs path (o :: rest) q) ∧
                          (news.map Prod.fst).Nodup := by
                        refine ⟨onews ++ rnews, ?_, ?_, ?_⟩
                        · rw [hr1, ho1, List.append_assoc]
                        · intro q hq
                          rw [List.map_append, List.mem_append] at hq
                          cases hq with
                          | inl h1 => exact childNs_head (ho3 q h1)
                          | inr h2 => exact childNs_tail (hr3 q h2)
                        · rw [List.map_append]
                          refine List.nodup_append.mpr ⟨ho4, hr4, ?_⟩
                          intro a ha1 ha2
                          exact inNs_notin_childNs hne (goodNames_name o hgo).2
                            hgrest hnotin (ho3 a ha1) (hr3 a ha2)
                      cases r2 with
                      | error e => exact hEX
                      | ok cs => exact hEX
termination_by structural gobjs

/-- Path-index effect of the children loop: only keys in the namespaces of
the listed children are appended, without duplicates. -/
theorem paths_build_children (ext : Externals) (sp : Special)
    (hsp : SpPreserves sp) (cs : List BObj) (mu : Mu) (path : String)
    (hg : goodNamesList cs = true)
    (hnd : (cs.map (fun o => strip_nnn o.name)).Nodup)
    (hne : path ≠ "")
    (hfree : ∀ k, k ∈ mu.object_paths.map Prod.fst → ¬ childNs path cs k) :
    ∃ news : List (String × MuObject),
      (build_children ext sp mu path cs).1.object_paths =
        mu.object_paths ++ news ∧
      (∀ q, q ∈ news.map Prod.fst → childNs path cs q) ∧
      (news.map Prod.fst).Nodup := by
  cases cs with
  | nil =>
      exact ⟨[], (List.append_nil _).symm, by simp, by simp⟩
  | cons o rest =>
      obtain ⟨hgo, hgrest⟩ := goodNamesList_cons o rest hg
      rw [List.map_cons] at hnd
      obtain ⟨hnotin, hndrest⟩ := List.nodup_cons.mp hnd
      rw [build_children]
      cases hL : lookupHandler sp o.muprops.modelType with
      | none =>
          dsimp only
          rw [if_neg Bool.false_ne_true]
          cases hcol : colliderSet o with
          | true =>
              rw [if_pos rfl]
              cases hmc : ext.make_collider o with
              | error e =>
                  exact ⟨[], (List.append_nil _).symm, by simp, by simp⟩
              | ok col =>
                  obtain ⟨rnews, hr1, hr3, hr4⟩ :=
                    paths_build_children ext sp hsp rest mu path hgrest hndrest hne
                      (fun k hk hcn => hfree k hk (childNs_tail hcn))
                  cases hbc : build_children ext sp mu path rest with
                  | mk mu2 r2 =>
                      rw [hbc] at hr1
                      dsimp only at hr1
                      have hEX : ∃ news : List (String × MuObject),
                          mu2.object_paths = mu.object_paths ++ news ∧
                          (∀ q, q ∈ news.map Prod.fst → childNs path (o :: rest) q) ∧
                          (news.map Prod.fst).Nodup :=
                        ⟨rnews, hr1, fun q hq => childNs_tail (hr3 q hq), hr4⟩
                      cases r2 with
                      | error e => exact hEX
                      | ok p => exact hEX
          | false =>
              rw [if_neg Bool.false_ne_true]
              cases hux : isUnexportable o with
              | true =>
                  rw [if_pos rfl]
                  obtain ⟨rnews, hr1, hr3, hr4⟩ :=
                    paths_build_children ext sp hsp rest mu path hgrest hndrest hne
                      (fun k hk hcn => hfree k hk (childNs_tail hcn))
                  exact ⟨rnews, hr1, fun q hq => childNs_tail (hr3 q hq), hr4⟩
              | false =>
                  rw [if_neg Bool.false_ne_true]
                  obtain ⟨onews, ho1, _, ho3, ho4⟩ :=
                    paths_make_obj_at ext sp hsp o mu none path hgo
                      (fun k hk hin => hfree k hk (childNs_head hin))
                  cases hmo : make_obj_at ext sp mu none o path with
                  | mk mu2 r =>
                      rw [hmo] at ho1
                      dsimp only at ho1
                      cases r with
                      | error e =>
                          exact ⟨onews, ho1,
                            fun q hq => childNs_head (ho3 q hq), ho4⟩
                      | ok child =>
                          dsimp only
                          obtain ⟨rnews, hr1, hr3, hr4⟩ :=
                            paths_build_children ext sp hsp rest mu2 path hgrest hndrest hne (by
                              intro k hk hcn
                              rw [ho1, List.map_append, List.mem_append] at hk
                              cases hk with
                              | inl h1 => exact hfree k h1 (childNs_tail hcn)
                              | inr h2 =>
                                  exact inNs_notin_childNs hne (goodNames_name o hgo).2
                                    hgrest hnotin (ho3 k h2) hcn)
                          cases hbc : build_children ext sp mu2 path rest with
                          | mk mu3 r2 =>
                              rw [hbc] at hr1
                              dsimp only at hr1
                              have hEX : ∃ news : List (String × MuObject),
                                  mu3.object_paths = mu.object_paths ++ news ∧
                                  (∀ q, q ∈ news.map Prod.fst → childNs path (o :: rest) q) ∧
                                  (news.map Prod.fst).Nodup := by
                                refine ⟨onews ++ rnews, ?_, ?_, ?_⟩
                                · rw [hr1, ho1, List.append_assoc]
                                · intro q hq
                                  rw [List.map_append, List.mem_append] at hq
                                  cases hq with
                                  | inl h1 => exact childNs_head (ho3 q h1)
                                  | inr h2 => exact childNs_tail (hr3 q h2)
                                · rw [List.map_append]
                                  refine List.nodup_append.mpr ⟨ho4, hr4, ?_⟩
                                  intro a ha1 ha2
                                  exact inNs_notin_childNs hne (goodNames_name o hgo).2
                                    hgrest hnotin (ho3 a ha1) (hr3 a ha2)
                              cases r2 with
                              | error e => exact hEX
                              | ok p => exact hEX
      | some h =>
          dsimp only
          have hkeys : (h mu o).1.object_paths = mu.object_paths :=
            lookupHandler_preserves sp hsp o.muprops.modelType h hL mu o
          cases hcl : (h mu o).2 with
          | true =>
              rw [if_pos rfl]
              obtain ⟨rnews, hr1, hr3, hr4⟩ :=
                paths_build_children ext sp hsp rest (h mu o).1 path hgrest hndrest hne (by
                  intro k hk hcn
                  rw [hkeys] at hk
                  exact hfree k hk (childNs_tail hcn))
              exact ⟨rnews, by rw [hr1, hkeys],
                fun q hq => childNs_tail (hr3 q hq), hr4⟩
          | false =>
              rw [if_neg Bool.false_ne_true]
              cases hcol : colliderSet o with
              | true =>
                  rw [if_pos rfl]
                  cases hmc : ext.make_collider o with
                  | error e =>
                      exact ⟨[], by rw [hkeys]; exact (List.append_nil _).symm,
                        by simp, by simp⟩
                  | ok col =>
                      obtain ⟨rnews, hr1, hr3, hr4⟩ :=
                        paths_build_children ext sp hsp rest (h mu o).1 path
                          hgrest hndrest hne (by
                            intro k hk hcn
                            rw [hkeys] at hk
                            exact hfree k hk (childNs_tail hcn))
                      cases hbc : build_children ext sp (h mu o).1 path rest with
                      | mk mu2 r2 =>
                          rw [hbc] at hr1
                          dsimp only at hr1
                          have hEX : ∃ news : List (String × MuObject),
                              mu2.object_paths = mu.object_paths ++ news ∧
                              (∀ q, q ∈ news.map Prod.fst → childNs path (o :: rest) q) ∧
                              (news.map Prod.fst).Nodup :=
                            ⟨rnews, by rw [hr1, hkeys],
                              fun q hq => childNs_tail (hr3 q hq), hr4⟩
                          cases r2 with
                          | error e => exact hEX
                          | ok p => exact hEX
              | false =>
                  rw [if_neg Bool.false_ne_true]
                  cases hux : isUnexportable o with
                  | true =>
                      rw [if_pos rfl]
                      obtain ⟨rnews, hr1, hr3, hr4⟩ :=
                        paths_build_children ext sp hsp rest (h mu o).1 path
                          hgrest hndrest hne (by
                            intro k hk hcn
                            rw [hkeys] at hk
                            exact hfree k hk (childNs_tail hcn))
                      exact ⟨rnews, by rw [hr1, hkeys],
                        fun q hq => childNs_tail (hr3 q hq), hr4⟩
                  | false =>
                      rw [if_neg Bool.false_ne_true]
                      obtain ⟨onews, ho1, _, ho3, ho4⟩ :=
                        paths_make_obj_at ext sp hsp o (h mu o).1 none path hgo (by
                          intro k hk hin
                          rw [hkeys] at hk
                          exact hfree k hk (childNs_head hin))
                      cases hmo : make_obj_at ext sp (h mu o).1 none o path with
                      | mk mu2 r =>
                          rw [hmo] at ho1
                          dsimp only at ho1
                          cases r with
                          | error e =>
                              exact ⟨onews, by rw [ho1, hkeys],
                                fun q hq => childNs_head (ho3 q hq), ho4⟩
                          | ok child =>
                              dsimp only
                              obtain ⟨rnews, hr1, hr3, hr4⟩ :=
                                paths_build_children ext sp hsp rest mu2 path
                                  hgrest hndrest hne (by
                                    intro k hk hcn
                                    rw [ho1, hkeys, List.map_append, List.mem_append] at hk
                                    cases hk with
                                    | inl h1 => exact hfree k h1 (childNs_tail hcn)
                                    | inr h2 =>
                                        exact inNs_notin_childNs hne (goodNames_name o hgo).2
                                          hgrest hnotin (ho3 k h2) hcn)
                              cases hbc : build_children ext sp mu2 path rest with
                              | mk mu3 r2 =>
                                  rw [hbc] at hr1
                                  dsimp only at hr1
                                  have hEX : ∃ news : List (String × MuObject),
                                      mu3.object_paths = mu.object_paths ++ news ∧
                                      (∀ q, q ∈ news.map Prod.fst → childNs path (o :: rest) q) ∧
                                      (news.map Prod.fst).Nodup := by
                                    refine ⟨onews ++ rnews, ?_, ?_, ?_⟩
                                    · rw [hr1, ho1, hkeys, List.append_assoc]
                                    · intro q hq
                                      rw [List.map_append, List.mem_append] at hq
                                      cases hq with
                                      | inl h1 => exact childNs_head (ho3 q h1)
                                      | inr h2 => exact childNs_tail (hr3 q h2)
                                    · rw [List.map_append]
                                      refine List.nodup_append.mpr ⟨ho4, hr4, ?_⟩
                                      intro a ha1 ha2
                                      exact inNs_notin_childNs hne (goodNames_name o hgo).2
                                        hgrest hnotin (ho3 a ha1) (hr3 a ha2)
                                  cases r2 with
                                  | error e => exact hEX
                                  | ok p => exact hEX
termination_by structural cs

end

/-- C3: for every node emitted by the tree builder, the key it registers in
the model's path index is the parent's path prefix joined with "/" and the
node's suffix-stripped name; that key is appended before any key of the
node's children (it is the head of the newly appended block, so the node is
registered before any descent); every other appended key lies strictly
inside the node's namespace (`key = self ++ "/" ++ …`, so a child never
collides with or shadows an ancestor's path); and, absent authoring name
collisions (`goodNames`), no two registered nodes share a path (the new
keys are pairwise distinct and avoid the pre-existing keys by the freshness
hypothesis).  Universally quantified over the starting state, prefix and
subtree, this covers every recursive `make_obj` call of an export. -/
theorem make_obj_registered_paths (ext : Externals) (sp : Special)
    (hsp : SpPreserves sp) (obj : BObj) (mu : Mu) (path : String)
    (hg : goodNames obj = true)
    (hfree : ∀ k, k ∈ mu.object_paths.map Prod.fst →
      ¬ inNs (joinPath path (strip_nnn obj.name)) k) :
    ∃ news : List (String × MuObject),
      (make_obj ext sp mu obj path).1.object_paths =
        mu.object_paths ++ news ∧
      news.map Prod.fst =
        joinPath path (strip_nnn obj.name) :: (news.map Prod.fst).tail ∧
      (∀ q, q ∈ news.map Prod.fst →
        inNs (joinPath path (strip_nnn obj.name)) q) ∧
      (news.map Prod.fst).Nodup := by
  rw [make_obj]
  exact paths_make_obj_at ext sp hsp obj mu none path hg hfree

/-- C3 witness: a concrete two-child tree with collision-free names built
from the empty model at the root prefix. -/
theorem make_obj_registered_paths_witness :
    goodNames (mkEmpty "root" [mkEmpty "a" [], mkEmpty "b" []]) = true ∧
    ∃ news : List (String × MuObject),
      (make_obj extKeep [] mu0
          (mkEmpty "root" [mkEmpty "a" [], mkEmpty "b" []]) "").1.object_paths =
        mu0.object_paths ++ news ∧
      news.map Prod.fst =
        joinPath "" (strip_nnn (mkEmpty "root" [mkEmpty "a" [], mkEmpty "b" []]).name) ::
          (news.map Prod.fst).tail ∧
      (∀ q, q ∈ news.map Prod.fst →
        inNs (joinPath ""
          (strip_nnn (mkEmpty "root" [mkEmpty "a" [], mkEmpty "b" []]).name)) q) ∧
      (news.map Prod.fst).Nodup :=
  ⟨by decide,
    make_obj_registered_paths extKeep []
      (fun p hp => absurd hp (List.not_mem_nil p)) _ mu0 "" (by decide)
      (by intro k hk; exact absurd hk (by simp [mu0]))⟩
